import Mathlib

/-
Verification of the Doc_chunk knowledge-tree extraction / evaluation /
chunking / vector-ingestion pipeline.

Text is modelled as `List Char` (`Text`), faithful to Python `str` for the
operations used here (character filtering, concatenation, substring test).
Python in-place mutation is rendered by explicit value passing: every
procedure that mutates an object returns the object's new value.  Fallible
code returns `Except`/`Option`; loops driven by external LLM responses take
the finite sequence of responses as an explicit argument, and `none` means
the loop had not terminated when that sequence was exhausted.
-/

/-- Python strings, modelled as lists of unicode scalar values. -/
abbrev Text := List Char

/- ===================================================================
   Utils/contains_match.py : FormatInsensitiveMatcher
   =================================================================== -/

/-- Characters removed by the matcher: `string.whitespace`,
`string.punctuation`, the CJK punctuation string and the Markdown symbols,
exactly as assembled in `FormatInsensitiveMatcher.__init__`
(src/Utils/contains_match.py lines 35-40). -/
def ignoreChars : Text :=
  (" \t\n\r\x0b\x0c"
    ++ "!\"#$%&\x27()*+,-./:;<=>?@[\\]^_`\x7b|\x7d~"
    ++ "、。！？，；：“”‘’（）【】《》……—·＇＂＃＄％＆＇＊＋－／：＜＝＞＠［＼］＾＿｀\uFF5B｜\uFF5D～——"
    ++ "*_`#").toList

/-- Python `str.casefold` restricted to the ASCII letters (the only cased
characters exercised by this code base; CJK text is unaffected by casefold). -/
def caseFoldChar (c : Char) : Char :=
  if 65 ≤ c.toNat ∧ c.toNat ≤ 90 then Char.ofNat (c.toNat + 32) else c

/-- Embeds `FormatInsensitiveMatcher.clean_text`: delete every ignored character,
then casefold (src/Utils/contains_match.py lines 44-46). -/
def clean_text (s : Text) : Text :=
  (s.filter (fun c => !(ignoreChars.contains c))).map caseFoldChar

/-- Python substring containment `needle in haystack`. -/
def subList (needle : Text) : Text → Bool
  | [] => needle.isEmpty
  | c :: rest => needle.isPrefixOf (c :: rest) || subList needle rest

/-- Embeds `FormatInsensitiveMatcher.contains_match`
(src/Utils/contains_match.py lines 48-62): clean both sides; an empty
cleaned target always matches, otherwise test substring containment. -/
def contains_match (target document : Text) : Bool :=
  let clean_target := clean_text target
  if clean_target.isEmpty then true
  else subList clean_target (clean_text document)

/- ===================================================================
   Utils/graph_state.py : KnowledgeNode / KnowledgeTree
   =================================================================== -/

/-- Embeds `Utils.graph_state.KnowledgeNode`: `title`, `content`, optional ordered
`children` (absent ⇔ leaf).  `Utils.graph_state.KnowledgeTree` has exactly
the same three fields, so the same type embeds both. -/
inductive KnowledgeNode where
  | mk (title : Text) (content : Text) (children : Option (List KnowledgeNode))

def KnowledgeNode.title : KnowledgeNode → Text
  | .mk t _ _ => t

def KnowledgeNode.content : KnowledgeNode → Text
  | .mk _ c _ => c

def KnowledgeNode.children : KnowledgeNode → Option (List KnowledgeNode)
  | .mk _ _ ch => ch

/-- Children as a plain list (`None` and `[]` both read as no children). -/
def KnowledgeNode.childrenList (n : KnowledgeNode) : List KnowledgeNode :=
  n.children.getD []

def KnowledgeNode.withChildren : KnowledgeNode → Option (List KnowledgeNode) → KnowledgeNode
  | .mk t c _, ch => .mk t c ch

instance : Inhabited KnowledgeNode := ⟨.mk [] [] none⟩

mutual

/-- Python `copy.deepcopy` / pydantic `model_copy(deep=True)` on a node:
a full structural copy. -/
def deepcopyNode : KnowledgeNode → KnowledgeNode
  | .mk t c ch => .mk t c (deepcopyChildren ch)

def deepcopyChildren : Option (List KnowledgeNode) → Option (List KnowledgeNode)
  | none => none
  | some l => some (deepcopyList l)

def deepcopyList : List KnowledgeNode → List KnowledgeNode
  | [] => []
  | n :: ns => deepcopyNode n :: deepcopyList ns

end

/- ===================================================================
   get_knowledge/eva_Omission_k_worker.py : append_knowledge_node
   =================================================================== -/

/-- Intermediate node auto-created for an unmatched non-final path segment
(src/get_knowledge/eva_Omission_k_worker.py lines 152-156). -/
def mkAutoNode (seg : Text) : KnowledgeNode :=
  .mk seg ("自动创建的节点: ".toList ++ seg) (some [])

/-- Index of the first child accepted by `p`, mirroring the Python
`for child in current_node.children` search loops. -/
def firstMatchIdx (p : KnowledgeNode → Bool) : List KnowledgeNode → Option Nat
  | [] => none
  | c :: rest => if p c then some 0 else (firstMatchIdx p rest).map (· + 1)

/-- Descent of `append_knowledge_node` below the root: at each segment the
first child with that title is entered; an unmatched final segment appends
`node` directly; an unmatched non-final segment appends an auto-created
intermediate and continues inside it; an exhausted path appends `node` to
the current children (the code normalizes absent children to `[]` before
appending, so `childrenList` is faithful). -/
def appendAux (node : KnowledgeNode) : List Text → KnowledgeNode → KnowledgeNode
  | [], cur => cur.withChildren (some (cur.childrenList ++ [node]))
  | seg :: rest, cur =>
    let cs := cur.childrenList
    match firstMatchIdx (fun c => c.title == seg) cs with
    | some i => cur.withChildren (some (cs.set i (appendAux node rest (cs.getD i default))))
    | none =>
      if rest.isEmpty then cur.withChildren (some (cs ++ [node]))
      else cur.withChildren (some (cs ++ [appendAux node rest (mkAutoNode seg)]))

/-- Embeds `append_knowledge_node(tree, target_path, new_node)`
(src/get_knowledge/eva_Omission_k_worker.py lines 90-175): deep-copies the
tree, lets the first path segment match the root title itself, then descends
by child titles, auto-creating unmatched intermediate segments, and appends
`new_node` under the node finally reached.  Always succeeds (the `raise`
branch at line 173 is unreachable: the copied node's children were just
normalized to a list). -/
def append_knowledge_node (tree : KnowledgeNode) (target_path : List Text)
    (new_node : KnowledgeNode) : KnowledgeNode :=
  let new_tree := deepcopyNode tree
  match target_path with
  | [] => appendAux new_node [] new_tree
  | s0 :: rest =>
    if new_tree.title == s0 then appendAux new_node rest new_tree
    else appendAux new_node (s0 :: rest) new_tree

/- ===================================================================
   get_knowledge/eva_Omission_k_worker.py : init_evaluation_chain
   =================================================================== -/

/-- A missed knowledge point reported by the evaluator
(`MissingNode` in src/get_knowledge/eva_Omission_k_worker.py lines 24-36). -/
structure EvalPoint where
  title : Text
  content : Text
  path : List Text

/-- One parsed evaluator response (the dict produced by the JSON parser at
line 224).  `point` models the JSON `point` value: absent or `null` ↦
`none`; a single point object ↦ `some [p]` (a non-empty dict is truthy);
a JSON array ↦ `some` of its elements. -/
structure EvalRes where
  status : Text
  point : Option (List EvalPoint)

instance : Inhabited EvalRes := ⟨⟨[], none⟩⟩

/-- Python truthiness of the point value fetched from the result dict. -/
def pointTruthy : Option (List EvalPoint) → Bool
  | none => false
  | some ps => !ps.isEmpty

/-- The branch condition at line 232 of the worker: the status equals
incomplete AND the point value is truthy. -/
def isDirty (r : EvalRes) : Bool :=
  r.status == "incomplete".toList && pointTruthy r.point

/-- Lines 234-248: wrap the point (or each point of a list) in a
`KnowledgeNode` and append it at its path.  The `except ValueError` at
line 250 never fires (`append_knowledge_node` is total). -/
def applyPoints (t : KnowledgeNode) (r : EvalRes) : KnowledgeNode :=
  (r.point.getD []).foldl
    (fun acc p => append_knowledge_node acc p.path (KnowledgeNode.mk p.title p.content none)) t

/-- One iteration of the `while complete_count < eva_k_times` body
(lines 219-256): an `incomplete` result carrying a truthy point patches the
tree and resets the counter to 0; every other result increments the counter. -/
def evalStep (complete_count : Nat) (t : KnowledgeNode) (r : EvalRes) :
    Nat × KnowledgeNode :=
  if isDirty r then (0, applyPoints t r) else (complete_count + 1, t)

/-- The `init_evaluation_chain` loop (lines 216-259) driven by an explicit
finite list of evaluator responses.  Returns the final tree and the number
of responses consumed when the counter reaches `eva_k_times`; returns
`none` when the supplied responses are exhausted first (the Python loop
would keep calling the evaluator — it has no iteration cap). -/
def runEval (eva_k_times : Nat) : List EvalRes → Nat → KnowledgeNode →
    Option (KnowledgeNode × Nat)
  | rs, complete_count, t =>
    if eva_k_times ≤ complete_count then some (t, 0)
    else
      match rs with
      | [] => none
      | r :: rest =>
        let s := evalStep complete_count t r
        match runEval eva_k_times rest s.1 s.2 with
        | none => none
        | some (t2, n) => some (t2, n + 1)

/- ===================================================================
   old_version/get_knowledge/gen_k_chunk_worker.py : reconciliation loop
   =================================================================== -/

/-- One LLM judge response (`llm_eva_result` in src/Utils/contains_match.py
lines 27-30) as consumed by the reconciliation loop. -/
structure JudgeResult where
  reason : Text
  found : Bool
  corrected_content : Text

/-- The `while match_found == False` loop of `gen_knowledge_chunk`
(src/old_version/get_knowledge/gen_k_chunk_worker.py lines 96-111), driven
by an explicit finite list of judge responses: check `contains_match`; on
failure consult the judge; `found=true` accepts the current content,
otherwise the content is replaced by `corrected_content` and the loop
repeats.  `none` means the supplied responses were exhausted with the loop
still running (the Python loop has no retry cap). -/
def reconLoop (source_doc : Text) : List JudgeResult → Text → Option Text
  | judges, content =>
    if contains_match content source_doc then some content
    else
      match judges with
      | [] => none
      | j :: rest =>
        if j.found then some content
        else reconLoop source_doc rest j.corrected_content

/- ===================================================================
   Utils/llm.py get_llm_from_list + Utils/gen_chunks_with_metadata.py
   add_metadata_2_chunk : multi-backend fallback
   =================================================================== -/

/-- Error raised out of the fallback loop: either the chain-execution error
of the last backend tried, or the bare `IndexError` from
`get_llm_from_list` when no backend had been tried at all. -/
inductive FallbackError (ε : Type) where
  | execError (e : ε)
  | indexExhausted
deriving DecidableEq

/-- Embeds `get_llm_from_list(type, seq)` for a list-valued configuration
(src/Utils/llm.py lines 39-42): the backend at `seq`, or an `IndexError`
when `seq` is past the end of the configured list.  A backend is modelled
by the outcome (`Except ε ρ`) its chain invocation would produce. -/
def get_llm_from_list (backends : List (Except ε ρ)) (seq : Nat) :
    Except Unit (Except ε ρ) :=
  if h : seq < backends.length then .ok (backends.get ⟨seq, h⟩)
  else .error ()

/-- The `while True` retry loop of `add_metadata_2_chunk`
(src/Utils/gen_chunks_with_metadata.py lines 63-83), also counting the
number of chain invocations: fetch backend `seq` (an `IndexError` here
re-raises `last_error` when one exists, else the `IndexError` itself);
invoke it; on success return the result, on failure record it as
`last_error` and move to `seq + 1`. -/
def tryBackends (backends : List (Except ε ρ)) (seq : Nat)
    (last_error : Option ε) (attempts : Nat) : Except (FallbackError ε) ρ × Nat :=
  if h : seq < backends.length then
    match backends.get ⟨seq, h⟩ with
    | .ok r => (.ok r, attempts + 1)
    | .error e => tryBackends backends (seq + 1) (some e) (attempts + 1)
  else
    match last_error with
    | some e => (.error (.execError e), attempts)
    | none => (.error .indexExhausted, attempts)
termination_by backends.length - seq

/-- The whole multi-backend invocation of `add_metadata_2_chunk`: start at
sequence index 0 with no recorded error. -/
def invokeWithFallback (backends : List (Except ε ρ)) : Except (FallbackError ε) ρ × Nat :=
  tryBackends backends 0 none 0

/-- Discriminates a failed backend invocation. -/
def isErr : Except ε ρ → Bool
  | .error _ => true
  | .ok _ => false

/- ===================================================================
   get_knowledge/knowledge_tree_modifier.py : KnowledgeTreeModifier

   The modifier's algorithm operates on the root-bearing tree shape
   (`KnowledgeTree.root`) defined in old_version/graph_state copy.py and
   constructed by the modifier's own test code; the `KnowledgeTree` of the
   current Utils/graph_state.py has no `root` field, a wiring mismatch of
   the repository that is orthogonal to the patch-engine semantics
   verified here.
   =================================================================== -/

/-- The tree consumed by the patch engine: a single root node
(old_version/graph_state copy.py line 14-16). -/
structure KnowledgeTree where
  root : KnowledgeNode

/-- A Python value as it can appear inside a `Dict[str, Any]` node payload:
a string, a list, a dict (modelled through the only keys
`_create_node_from_content` reads: `title`, `content`, `children`, each
`none` when the key is absent), `None`, or anything else. -/
inductive PyVal where
  | pstr (s : Text)
  | plist (xs : List PyVal)
  | pdictv (title : Option PyVal) (content : Option PyVal) (children : Option PyVal)
  | pnone
  | pother

/-- Python truthiness for the modelled values (a dict is truthy iff it has
a key; `pother` stands for arbitrary further objects, taken truthy). -/
def pyTruthy : PyVal → Bool
  | .pstr s => !s.isEmpty
  | .plist xs => !xs.isEmpty
  | .pdictv t c ch => t.isSome || c.isSome || ch.isSome
  | .pnone => false
  | .pother => true

/-- Embeds `d.get(key, "")` for `title`/`content` followed by pydantic validation
of a `str` field: an absent key yields the empty string, a string value is
accepted, any other value makes `KnowledgeNode(...)` raise. -/
def pyStrField : Option PyVal → Except Text Text
  | none => .ok []
  | some (.pstr s) => .ok s
  | some _ => .error ("pydantic validation error: value is not a string".toList)

mutual

/-- Worker of `_create_node_from_content` for a dict payload
(src/get_knowledge/knowledge_tree_modifier.py lines 251-268): its
`title`/`content` default to `""`; `children` is built by
`createChildrenFromData`. -/
def createDict (t c ch : Option PyVal) : Except Text KnowledgeNode :=
  match pyStrField t with
  | .error e => .error e
  | .ok title =>
    match pyStrField c with
    | .error e => .error e
    | .ok content =>
      match createChildrenFromData ch with
      | .error e => .error e
      | .ok children => .ok (.mk title content children)

/-- Embeds `_create_node_from_content` on a raw value: only a dict is accepted. -/
def createFromVal : PyVal → Except Text KnowledgeNode
  | .pdictv t c ch => createDict t c ch
  | _ => .error ("Content must be a KnowledgeNodeContent or dictionary for node creation".toList)

/-- The `children_data` handling of lines 254-266: falsy data gives no
children; a list recreates each item (non-dict items raise); a dict keeps
only its dict values (in the field order of the model); any other truthy
value gives no children. -/
def createChildrenFromData : Option PyVal → Except Text (Option (List KnowledgeNode))
  | none => .ok none
  | some v =>
    if pyTruthy v then
      match v with
      | .plist xs =>
        match createFromValList xs with
        | .error e => .error e
        | .ok ns => .ok (some ns)
      | .pdictv t c ch =>
        match createFromDictField t with
        | .error e => .error e
        | .ok n1 =>
          match createFromDictField c with
          | .error e => .error e
          | .ok n2 =>
            match createFromDictField ch with
            | .error e => .error e
            | .ok n3 => .ok (some (n1 ++ n2 ++ n3))
      | _ => .ok none
    else .ok none

/-- One dict value of a dict-shaped `children_data`: only a dict value
contributes a created child (lines 261-266). -/
def createFromDictField : Option PyVal → Except Text (List KnowledgeNode)
  | some (.pdictv t c ch) =>
    match createDict t c ch with
    | .error e => .error e
    | .ok n => .ok [n]
  | _ => .ok []

def createFromValList : List PyVal → Except Text (List KnowledgeNode)
  | [] => .ok []
  | v :: vs =>
    match createFromVal v with
    | .error e => .error e
    | .ok n =>
      match createFromValList vs with
      | .error e => .error e
      | .ok ns => .ok (n :: ns)

end

/-- Embeds `KnowledgeNodeContent` (src/get_knowledge/modification_models.py lines
10-29): pydantic guarantees `title`/`content` are strings and `children`,
when present, is a list of dicts; the dict values are arbitrary. -/
structure KNContent where
  title : Text
  content : Text
  children : Option (List PyVal)

/-- Embeds `_create_node_from_content` on a typed `KnowledgeNodeContent`
(lines 245-250): `if content.children:` — absent or empty children give a
leaf; otherwise every item is recreated recursively. -/
def createNodeFromContent (c : KNContent) : Except Text KnowledgeNode :=
  match c.children with
  | some l =>
    if l.isEmpty then .ok (.mk c.title c.content none)
    else
      match createFromValList l with
      | .error e => .error e
      | .ok ns => .ok (.mk c.title c.content (some ns))
  | none => .ok (.mk c.title c.content none)

/-- A `ModificationOperation` as the modifier receives it; the `action`
literal and the cross-field validators live in the pydantic layer, so the
engine itself treats them defensively, as modelled here. -/
structure ModOp where
  action : Text
  path : Text
  content : Option KNContent
  reason : Text

/-- One step of the character loop of `_parse_path` (lines 131-159), on the
state (collected parts, current fragment, in-brackets flag). -/
def parseStep (st : List Text × Text × Bool) (ch : Char) : List Text × Text × Bool :=
  let parts := st.1
  let current := st.2.1
  let inBrackets := st.2.2
  if ch = '[' then
    ((if current.isEmpty then parts else parts ++ [current]), [], true)
  else if ch = ']' then
    if inBrackets ∧ ¬current.isEmpty then
      (parts ++ ['[' :: (current ++ [']'])], [], false)
    else (parts, current, false)
  else if ch = '.' ∧ ¬inBrackets then
    ((if current.isEmpty then parts else parts ++ [current]), [], inBrackets)
  else (parts, current ++ [ch], inBrackets)

/-- Embeds `_parse_path` (lines 131-159): split a path string on dots and
brackets; a bracketed index is kept as a single `[...]` part. -/
def parse_path (path : Text) : List Text :=
  match path.foldl parseStep ([], [], false) with
  | (parts, current, _) => if current.isEmpty then parts else parts ++ [current]

/-- Embeds `part.startswith('[') and part.endswith(']')`. -/
def isIdxPart (p : Text) : Bool :=
  p.head? == some '[' && p.getLast? == some ']'

/-- Embeds `part[1:-1]`. -/
def innerOf (p : Text) : Text := (p.drop 1).dropLast

/-- Python `int(s)`: optional surrounding whitespace, optional sign, a
non-empty digit string; anything else raises `ValueError`.  (Underscore
digit grouping is not modelled.) -/
def pyInt (s : Text) : Option Int :=
  let t := ((s.dropWhile Char.isWhitespace).reverse.dropWhile Char.isWhitespace).reverse
  match t with
  | '-' :: ds =>
    if !ds.isEmpty && ds.all Char.isDigit then
      some (-(Int.ofNat (ds.foldl (fun n c => n * 10 + (c.toNat - 48)) 0)))
    else none
  | '+' :: ds =>
    if !ds.isEmpty && ds.all Char.isDigit then
      some (Int.ofNat (ds.foldl (fun n c => n * 10 + (c.toNat - 48)) 0))
    else none
  | ds =>
    if !ds.isEmpty && ds.all Char.isDigit then
      some (Int.ofNat (ds.foldl (fun n c => n * 10 + (c.toNat - 48)) 0))
    else none

/-- The hard-wired key-name table of `_get_node_by_path` (lines 190-200):
`chapterN`/`sectionN` match a child whose title contains the corresponding
Chinese numeral heading; any other key name matches nothing. -/
def chapterKey (p : Text) : Option Text :=
  if p == "chapter1".toList then some ("第一章".toList)
  else if p == "chapter2".toList then some ("第二章".toList)
  else if p == "chapter3".toList then some ("第三章".toList)
  else if p == "chapter4".toList then some ("第四章".toList)
  else if p == "chapter5".toList then some ("第五章".toList)
  else if p == "chapter6".toList then some ("第六章".toList)
  else if p == "section1".toList then some ("第一节".toList)
  else if p == "section2".toList then some ("第二节".toList)
  else if p == "section3".toList then some ("第三节".toList)
  else if p == "section4".toList then some ("第四节".toList)
  else none

/-- Functional form of `_get_node_by_path` (lines 161-209) acting on the
parts after the leading `root` element (which the code skips unchecked):
`children` parts are skipped, `[k]` parts step into child `k`, `title` or
`content` stops the walk at the current node, and any other part is looked
up through `chapterKey` by title containment.  The located node is
transformed by `f`, which returns its replacement plus an optional
post-mutation error; navigation failures leave the tree untouched and are
returned as `Except.error`. -/
def navUpdate (f : KnowledgeNode → KnowledgeNode × Option Text) :
    List Text → KnowledgeNode → Except Text (KnowledgeNode × Option Text)
  | [], node => .ok (f node)
  | p :: rest, node =>
    if p == "children".toList then navUpdate f rest node
    else if isIdxPart p then
      match pyInt (innerOf p) with
      | none => .error ("Invalid index format in path".toList)
      | some i =>
        match node.children with
        | none => .error ("Node has no children to access index".toList)
        | some cs =>
          if 0 ≤ i ∧ i.toNat < cs.length then
            match navUpdate f rest (cs.getD i.toNat default) with
            | .error e => .error e
            | .ok (c2, err) => .ok (node.withChildren (some (cs.set i.toNat c2)), err)
          else .error ("Invalid path: index out of range".toList)
    else if p == "title".toList || p == "content".toList then .ok (f node)
    else
      match node.children with
      | none => .error ("Node has no children to access key".toList)
      | some cs =>
        match chapterKey p with
        | none => .error ("Cannot find child node for key".toList)
        | some key =>
          match firstMatchIdx (fun c => subList key c.title) cs with
          | none => .error ("Cannot find child node for key".toList)
          | some j =>
            match navUpdate f rest (cs.getD j default) with
            | .error e => .error e
            | .ok (c2, err) => .ok (node.withChildren (some (cs.set j c2)), err)

/-- The mutation performed by `_add_node` at its parent node (lines 79-91):
normalize absent children to `[]` (this write persists even when the
subsequent node creation fails), create the node from the payload, append
it. -/
def addInto (c : KNContent) (n : KnowledgeNode) : KnowledgeNode × Option Text :=
  let n1 := n.withChildren (some n.childrenList)
  match createNodeFromContent c with
  | .error e => (n1, some e)
  | .ok newn => (n1.withChildren (some (n1.childrenList ++ [newn])), none)

/-- Embeds `_add_node` (lines 70-91). -/
def addNode (root : KnowledgeNode) (target_path : Text) (content : Option KNContent) :
    KnowledgeNode × Option Text :=
  match content with
  | none => (root, some ("Content cannot be None for add operation".toList))
  | some c =>
    let parts := parse_path target_path
    if parts.length = 2 ∧ parts.getD 1 [] == "children".toList then
      addInto c root
    else
      let parentParts := if parts.length ≤ 2 then [] else (parts.dropLast).drop 1
      match navUpdate (addInto c) parentParts root with
      | .error e => (root, some e)
      | .ok (r2, err) => (r2, err)

/-- Index of the first `[...]` part, as searched by `_get_parent_and_index`
(lines 219-229). -/
def firstIdxPart : Nat → List Text → Option (Nat × Text)
  | _, [] => none
  | i, p :: ps => if isIdxPart p then some (i, p) else firstIdxPart (i + 1) ps

/-- The mutation performed by `_delete_node` at the parent (lines 100-107):
with truthy children and `0 <= index < len`, pop the index and turn an
emptied list into `None`; otherwise fail without mutating. -/
def popChild (idx : Int) (parent : KnowledgeNode) : KnowledgeNode × Option Text :=
  let cs := parent.childrenList
  if !cs.isEmpty ∧ 0 ≤ idx ∧ idx.toNat < cs.length then
    let cs2 := cs.eraseIdx idx.toNat
    (parent.withChildren (if cs2.isEmpty then none else some cs2), none)
  else (parent, some ("Invalid index for deletion".toList))

/-- Embeds `_delete_node` (lines 93-107) with `_get_parent_and_index`
(lines 219-229): refuse paths shorter than three parts, locate the FIRST
bracketed part, parse its integer, navigate to the prefix before it and pop
there. -/
def deleteNode (root : KnowledgeNode) (target_path : Text) :
    KnowledgeNode × Option Text :=
  let parts := parse_path target_path
  if parts.length < 3 then (root, some ("Cannot delete root node".toList))
  else
    match firstIdxPart 0 parts with
    | none => (root, some ("No index found in path for deletion".toList))
    | some (i, part) =>
      match pyInt (innerOf part) with
      | none => (root, some ("invalid literal for int".toList))
      | some idx =>
        match navUpdate (popChild idx) ((parts.take i).drop 1) root with
        | .error e => (root, some e)
        | .ok (r2, err) => (r2, err)

/-- Python `str()` of a pydantic `KnowledgeNodeContent` object, which is
what `_modify_node` assigns to a `title`/`content` attribute; the exact
rendering of the `children` field is abbreviated, no verified property
depends on it. -/
def pyStrContent (c : KNContent) : Text :=
  "title=\x27".toList ++ c.title ++ "\x27 content=\x27".toList ++ c.content
    ++ "\x27 children=...".toList

/-- The attribute assignment of `_modify_node` (lines 117-129): `title` and
`content` are set to `str(content)`; the `children` attribute always fails
for a typed payload (it is a `KnowledgeNodeContent`, never a list or
`None`). -/
def setAttr (attr : Text) (c : KNContent) (node : KnowledgeNode) :
    KnowledgeNode × Option Text :=
  if attr == "title".toList then
    match node with
    | .mk _ cont ch => (.mk (pyStrContent c) cont ch, none)
  else if attr == "content".toList then
    match node with
    | .mk t _ ch => (.mk t (pyStrContent c) ch, none)
  else (node, some ("Children content must be a list or None".toList))

/-- Embeds `_modify_node` (lines 109-129) with `_get_target_node_and_attribute`
(lines 231-241): a trailing `title`/`content`/`children` part selects that
attribute on the node addressed by the prefix; otherwise the default
attribute is `content`. -/
def modifyNode (root : KnowledgeNode) (target_path : Text) (content : Option KNContent) :
    KnowledgeNode × Option Text :=
  match content with
  | none => (root, some ("Content cannot be None for modify operation".toList))
  | some c =>
    let parts := parse_path target_path
    let isAttr := fun (p : Text) =>
      p == "title".toList || p == "content".toList || p == "children".toList
    let pair :=
      match parts.getLast? with
      | some lastp =>
        if isAttr lastp then ((parts.dropLast).drop 1, lastp) else (parts.drop 1, "content".toList)
      | none => (parts.drop 1, "content".toList)
    match navUpdate (setAttr pair.2 c) pair.1 root with
    | .error e => (root, some e)
    | .ok (r2, err) => (r2, err)

/-- Embeds `_execute_action` (lines 52-68): reject an empty path, dispatch on the
action string (`none` never reaches here — the batch loop filters it, so it
falls into the unknown-action error exactly as in the source). -/
def executeAction (root : KnowledgeNode) (op : ModOp) : KnowledgeNode × Option Text :=
  if op.path.isEmpty then (root, some ("Missing path in operation".toList))
  else if op.action == "add".toList then addNode root op.path op.content
  else if op.action == "del".toList then deleteNode root op.path
  else if op.action == "modify".toList then modifyNode root op.path op.content
  else (root, some ("Unknown action".toList))

/-- The logged message `f"Operation {i+1} failed: {e}"`. -/
def opErrMsg (i : Nat) (e : Text) : Text :=
  "Operation ".toList ++ (Nat.repr (i + 1)).toList ++ " failed: ".toList ++ e

/-- The enumerated batch loop of `modify_knowledge_tree` (lines 39-48):
`none` actions are skipped, a successful action bumps
`modification_count`, a failed one appends to `error_log` and the loop
continues with the next operation. -/
def runOps : List ModOp → Nat → KnowledgeNode → Nat → List Text →
    KnowledgeNode × Nat × List Text
  | [], _, root, mc, log => (root, mc, log)
  | op :: ops, i, root, mc, log =>
    if op.action == "none".toList then runOps ops (i + 1) root mc log
    else
      match executeAction root op with
      | (r2, none) => runOps ops (i + 1) r2 (mc + 1) log
      | (r2, some e) => runOps ops (i + 1) r2 mc (log ++ [opErrMsg i e])

/-- Embeds `KnowledgeTreeModifier.modify_knowledge_tree` (lines 20-50): deep-copy
the input tree, reset the stats, run every operation against the copy;
returns the patched tree together with the final
(`modification_count`, `error_log`) pair. -/
def modify_knowledge_tree (ops : List ModOp) (tree : KnowledgeTree) :
    KnowledgeTree × Nat × List Text :=
  let copy := KnowledgeTree.mk (deepcopyNode tree.root)
  match runOps ops 0 copy.root 0 [] with
  | (r, mc, log) => (KnowledgeTree.mk r, mc, log)

/-- The dict returned by `get_modification_stats` (lines 272-278). -/
structure ModStats where
  total_modifications : Nat
  errors : List Text
  success : Bool

/-- Embeds `get_modification_stats`: the succeeded-modification count, the error
log, and `success = (no errors)`.  No attempted-operation count is part of
the dict. -/
def get_modification_stats (mc : Nat) (log : List Text) : ModStats :=
  ⟨mc, log, log.isEmpty⟩

/-- Explicit state-passing wrapper recording the value of the caller's
input tree after `modify_knowledge_tree` returns: the code's only access
to the input object is the read-only `deepcopy(knowledge_tree)` at line 33,
every subsequent write targets the copy, so the input's value is returned
unchanged. -/
def modify_knowledge_tree_tracked (ops : List ModOp) (tree : KnowledgeTree) :
    KnowledgeTree × (KnowledgeTree × Nat × List Text) :=
  (tree, modify_knowledge_tree ops tree)

/- ===================================================================
   app_RAG_general.py : process_state_to_vectordb (current version)
   =================================================================== -/

/-- Embeds `context` of src/Utils/gen_chunks_with_metadata.py lines 13-18. -/
structure ChunkContext where
  topic : Text
  keywords : List Text
  entities : List Text
  question : List Text
  background : Text

/-- Embeds `metadata` of src/Utils/gen_chunks_with_metadata.py lines 20-22. -/
structure ChunkMetadata where
  context : ChunkContext
  source_file : Text

/-- Embeds `chunk` of src/Utils/gen_chunks_with_metadata.py lines 24-26, the
element type of the list handed to `process_state_to_vectordb`. -/
structure MChunk where
  metadata : ChunkMetadata
  chunk_content : Text

/-- Python `str()` of a list of strings (`str(chunk.metadata.context.keywords)`):
the bracketed, comma-separated, quoted rendering. -/
def pyReprStrList (xs : List Text) : Text :=
  '[' :: (List.intercalate (", ".toList)
    (xs.map (fun s => '\x27' :: (s ++ ['\x27'])))) ++ "]".toList

/-- One vector-store document as assembled at
src/app_RAG_general.py lines 324-340 (numeric values rendered as their
decimal text). -/
structure VDoc where
  page_content : Text
  chunk_content : Text
  chunk_index : Nat
  source_file : Text
  topic : Text
  keywords : Text
  entities : Text
  chunk_type : Text
  content_length : Nat

/-- The document-building loop of lines 316-346: a chunk with empty
`chunk_content` is skipped (warning only), every other chunk yields one
document carrying its own `source_file`. -/
def buildDocs : List MChunk → Nat → List VDoc
  | [], _ => []
  | ch :: rest, i =>
    if ch.chunk_content.isEmpty then buildDocs rest (i + 1)
    else
      VDoc.mk ch.chunk_content ch.chunk_content i ch.metadata.source_file
        ch.metadata.context.topic (pyReprStrList ch.metadata.context.keywords)
        (pyReprStrList ch.metadata.context.entities) ("knowledge_chunk".toList)
        ch.chunk_content.length :: buildDocs rest (i + 1)

/-- Embeds `process_state_to_vectordb` (src/app_RAG_general.py lines 279-364) on a
vector store modelled as the list of stored documents: an empty chunk list
returns untouched; otherwise, unless the first chunk's `source_file` is the
sentinel `未知`, every stored document with that `source_file` is deleted;
then the built documents are appended (an empty build returns after the
deletion; `embed_documents` adds the batches in order, modelled as the
always-successful append). -/
def process_state_to_vectordb (store : List VDoc) (chunks : List MChunk) : List VDoc :=
  match chunks with
  | [] => store
  | c0 :: _ =>
    let source_file := c0.metadata.source_file
    let store1 :=
      if source_file ≠ "未知".toList then
        store.filter (fun d => d.source_file ≠ source_file)
      else store
    let docs := buildDocs chunks 0
    if docs.isEmpty then store1 else store1 ++ docs

/- ===================================================================
   old_version/get_knowledge/create_chunk_from_state.py : VectorDBManager
   =================================================================== -/

/-- Embeds `KnowledgeChunk` of Utils/graph_state.py lines 60-67; the `Dict[str, Any]`
metadata is modelled as an association list with stringified values (the
merge at line 252 applies `str` to every value). -/
structure OKChunk where
  title : Text
  content : Text
  metadata : Option (List (Text × Text))

/-- The `GraphState` fields read by the old-version ingestion. -/
structure OState where
  source_doc : Text
  source_file : Text
  ktree_title : Text
  chunks : List OKChunk

/-- One stored document of the old version: the composed page content plus
the metadata dict as an association list. -/
structure ODoc where
  page_content : Text
  metadata : List (Text × Text)

/-- Python `dict[k] = v`: replace the value in place or append a new key. -/
def dictSet : List (Text × Text) → Text → Text → List (Text × Text)
  | [], k, v => [(k, v)]
  | (k0, v0) :: rest, k, v =>
    if k0 = k then (k0, v) :: rest else (k0, v0) :: dictSet rest k v

/-- Python `dict.update(extra)`. -/
def dictUpdate (d extra : List (Text × Text)) : List (Text × Text) :=
  extra.foldl (fun acc kv => dictSet acc kv.1 kv.2) d

/-- The document built for one kept chunk
(src/old_version/get_knowledge/create_chunk_from_state.py lines 232-258):
structured page content, the base metadata dict, then the chunk's own
metadata merged over it. -/
def mkODoc (st : OState) (ch : OKChunk) (i : Nat) : ODoc :=
  let content := "标题: ".toList ++ ch.title ++ "\n内容: ".toList ++ ch.content
  let base : List (Text × Text) :=
    [("chunk_title".toList, ch.title),
     ("chunk_content".toList, ch.content),
     ("chunk_index".toList, (Nat.repr i).toList),
     ("source".toList, "知识切片".toList),
     ("source_file".toList,
       if st.source_file.isEmpty then "未知文件".toList else st.source_file),
     ("source_doc_length".toList, (Nat.repr st.source_doc.length).toList),
     ("knowledge_tree_title".toList,
       if st.ktree_title.isEmpty then [] else st.ktree_title),
     ("chunk_type".toList, "knowledge_chunk".toList),
     ("content_length".toList, (Nat.repr content.length).toList)]
  ODoc.mk content (dictUpdate base (ch.metadata.getD []))

/-- The chunk loop of lines 225-264: a chunk whose title or content is
empty is skipped with a warning, every other chunk yields one document. -/
def buildODocs (st : OState) : List OKChunk → Nat → List ODoc
  | [], _ => []
  | ch :: rest, i =>
    if ch.title.isEmpty || ch.content.isEmpty then buildODocs st rest (i + 1)
    else mkODoc st ch i :: buildODocs st rest (i + 1)

/-- Embeds `VectorDBManager.create_documents_from_chunks` (lines 199-267): apply
the optional `max_records` truncation, then build one document per
non-empty chunk. -/
def create_documents_from_chunks (max_records : Nat) (st : OState) : List ODoc :=
  let chunks :=
    if 0 < max_records ∧ max_records < st.chunks.length then st.chunks.take max_records
    else st.chunks
  buildODocs st chunks 0

/-- Embeds `VectorDBManager.process_state_to_vectordb` (lines 351-401): an empty
chunk list returns without writing; an empty document build returns
without writing; otherwise the documents are embedded and added — no
deletion of previous entries happens in this version (`embed_documents`
adds batches in order, modelled as the always-successful append). -/
def process_state_to_vectordb_old (max_records : Nat) (store : List ODoc)
    (st : OState) : List ODoc :=
  if st.chunks.isEmpty then store
  else
    let docs := create_documents_from_chunks max_records st
    if docs.isEmpty then store else store ++ docs

/- C9 theorems -/

mutual

def nodeTitles : KnowledgeNode → List Text
  | .mk t _ ch => t :: childTitles ch

def childTitles : Option (List KnowledgeNode) → List Text
  | none => []
  | some l => listTitles l

def listTitles : List KnowledgeNode → List Text
  | [] => []
  | n :: ns => nodeTitles n ++ listTitles ns

end

/- C2 theorems -/

def dirtyEx : EvalRes :=
  ⟨"incomplete".toList, some [⟨"P".toList, "pc".toList, [("R".toList)]⟩]⟩

def judgeEx : JudgeResult := ⟨"不是原文".toList, false, "zzz".toList⟩

/- C6 theorems -/

def cexChildA : KnowledgeNode :=
  .mk ("A".toList) ("a".toList)
    (some [.mk ("A0".toList) ("a0".toList) none, .mk ("A1".toList) ("a1".toList) none])

def cexChildB : KnowledgeNode := .mk ("B".toList) ("b".toList) none

def cexRoot : KnowledgeNode :=
  .mk ("R".toList) ("r".toList) (some [cexChildA, cexChildB])

/- C8 theorems -/

/-- Number of stored documents tagged with source file `f`. -/
def countTagged (store : List VDoc) (f : Text) : Nat :=
  (store.filter (fun d => d.source_file == f)).length

/- ===================================================================
   Theorems
   =================================================================== -/

theorem subList_iff_infix (needle hay : Text) :
    subList needle hay = true ↔ needle <:+: hay := by
  induction hay with
  | nil =>
    simp [subList, List.isEmpty_iff, List.infix_nil]
  | cons c rest ih =>
    simp only [subList, Bool.or_eq_true, List.isPrefixOf_iff_prefix, ih,
      List.infix_cons_iff]

/-- C3: `contains_match target document` is true iff the normalization of
`target` (whitespace, ASCII and CJK punctuation and Markdown symbols removed,
then casefolded) is a substring of the normalization of `document`; a target
with empty normalization always matches; and the three concrete examples
from the spec hold. -/
theorem contains_match_spec :
    (∀ t d : Text, contains_match t d = true ↔ clean_text t <:+: clean_text d)
    ∧ (∀ t d : Text, clean_text t = [] → contains_match t d = true)
    ∧ contains_match ("HELLO".toList) ("**Hello** World!".toList) = true
    ∧ contains_match ([]) ("anything".toList) = true
    ∧ contains_match ("NOMATCH".toList) ("other text".toList) = false := by
  have hmain : ∀ t d : Text,
      contains_match t d = true ↔ clean_text t <:+: clean_text d := by
    intro t d
    unfold contains_match
    by_cases h : (clean_text t).isEmpty
    · simp only [h, if_true, true_iff]
      rw [List.isEmpty_iff] at h
      rw [h]
      exact List.nil_infix
    · simp only [h, if_false]
      exact subList_iff_infix _ _
  refine ⟨hmain, ?_, by decide, by decide, by decide⟩
  intro t d h
  rw [hmain]
  rw [h]
  exact List.nil_infix

/-- Witness for C3: instantiates the empty-normalization clause at the
empty target and a concrete document. -/
theorem contains_match_spec_witness :
    contains_match ([]) ("xyz".toList) = true :=
  contains_match_spec.2.1 [] ("xyz".toList) (by decide)

mutual

theorem deepcopyNode_eq : ∀ n, deepcopyNode n = n
  | .mk t c ch => by rw [deepcopyNode, deepcopyChildren_eq]

theorem deepcopyChildren_eq : ∀ ch, deepcopyChildren ch = ch
  | none => by rw [deepcopyChildren]
  | some l => by rw [deepcopyChildren, deepcopyList_eq]

theorem deepcopyList_eq : ∀ l, deepcopyList l = l
  | [] => by rw [deepcopyList]
  | n :: ns => by rw [deepcopyList, deepcopyNode_eq, deepcopyList_eq]

end

theorem tryBackends_reach {ε ρ : Type} (backends : List (Except ε ρ))
    (k : Nat) (hk : k < backends.length) (r : ρ)
    (hr : backends.get ⟨k, hk⟩ = .ok r)
    (hall : ∀ i (h : i < backends.length), i < k → isErr (backends.get ⟨i, h⟩) = true) :
    ∀ d seq last att, k - seq = d → seq ≤ k →
      tryBackends backends seq last att = (.ok r, att + (k - seq) + 1) := by
  intro d
  induction d with
  | zero =>
    intro seq last att hd hle
    have hseq : seq = k := by omega
    subst hseq
    rw [tryBackends.eq_def, dif_pos hk, hr]
    simp
  | succ d ih =>
    intro seq last att hd hle
    have hlt : seq < k := by omega
    have hs : seq < backends.length := by omega
    rw [tryBackends.eq_def, dif_pos hs]
    have herr := hall seq hs hlt
    cases hget : backends.get ⟨seq, hs⟩ with
    | ok v => rw [hget] at herr; simp [isErr] at herr
    | error e =>
      simp only
      rw [ih (seq + 1) (some e) (att + 1) (by omega) (by omega)]
      have : k - seq = (k - (seq + 1)) + 1 := by omega
      rw [this]
      ring_nf

theorem tryBackends_allfail {ε ρ : Type} (backends : List (Except ε ρ)) (elast : ε)
    (hlast : backends.getLast? = some (.error elast))
    (hall : ∀ i (h : i < backends.length), isErr (backends.get ⟨i, h⟩) = true) :
    ∀ d seq last att, backends.length - seq = d + 1 →
      tryBackends backends seq last att
        = (.error (.execError elast), att + d + 1) := by
  intro d
  induction d with
  | zero =>
    intro seq last att hd
    have hs : seq < backends.length := by omega
    have hseq : seq = backends.length - 1 := by omega
    have hget : backends.get ⟨seq, hs⟩ = .error elast := by
      have h1 : backends.getLast? = backends[backends.length - 1]? := by
        rw [List.getLast?_eq_getElem?]
      rw [h1, List.getElem?_eq_getElem (by omega)] at hlast
      have := Option.some.inj hlast
      rw [← this]
      simp [hseq, List.get_eq_getElem]
    rw [tryBackends.eq_def, dif_pos hs, hget]
    simp only
    rw [tryBackends.eq_def, dif_neg (by omega)]
  | succ d ih =>
    intro seq last att hd
    have hs : seq < backends.length := by omega
    have herr := hall seq hs
    cases hget : backends.get ⟨seq, hs⟩ with
    | ok v => rw [hget] at herr; simp [isErr] at herr
    | error e =>
      rw [tryBackends.eq_def, dif_pos hs, hget]
      simp only
      rw [ih (seq + 1) (some e) (att + 1) (by omega)]
      ring_nf

/-- C4: the multi-backend invocation tries backend 0, 1, ... in order and
returns the first backend result that completes without raising, after
exactly first-success-index + 1 attempts; when every configured backend
raises, the surfaced error is the LAST backend execution error
(`execError`), not the index-exhaustion `IndexError`; and the two concrete
scenarios fail-fail-succeed and fail-fail-fail behave as the spec states. -/
theorem multi_backend_fallback_spec :
    (∀ (ε ρ : Type) (backends : List (Except ε ρ)) (k : Nat) (hk : k < backends.length) (r : ρ),
        backends.get ⟨k, hk⟩ = .ok r →
        (∀ i (h : i < backends.length), i < k → isErr (backends.get ⟨i, h⟩) = true) →
        invokeWithFallback backends = (.ok r, k + 1))
    ∧ (∀ (ε ρ : Type) (backends : List (Except ε ρ)) (elast : ε),
        backends.getLast? = some (.error elast) →
        (∀ i (h : i < backends.length), isErr (backends.get ⟨i, h⟩) = true) →
        invokeWithFallback backends = (.error (.execError elast), backends.length))
    ∧ invokeWithFallback ([Except.error 1, Except.error 2, Except.ok 7] : List (Except Nat Nat))
        = (Except.ok 7, 3)
    ∧ invokeWithFallback ([Except.error 1, Except.error 2, Except.error 3] : List (Except Nat Nat))
        = (Except.error (FallbackError.execError 3), 3) := by
  have h1 : ∀ (ε ρ : Type) (backends : List (Except ε ρ)) (k : Nat) (hk : k < backends.length) (r : ρ),
      backends.get ⟨k, hk⟩ = .ok r →
      (∀ i (h : i < backends.length), i < k → isErr (backends.get ⟨i, h⟩) = true) →
      invokeWithFallback backends = (.ok r, k + 1) := by
    intro ε ρ backends k hk r hr hall
    have := tryBackends_reach backends k hk r hr hall k 0 none 0 (by omega) (by omega)
    simpa [invokeWithFallback] using this
  have h2 : ∀ (ε ρ : Type) (backends : List (Except ε ρ)) (elast : ε),
      backends.getLast? = some (.error elast) →
      (∀ i (h : i < backends.length), isErr (backends.get ⟨i, h⟩) = true) →
      invokeWithFallback backends = (.error (.execError elast), backends.length) := by
    intro ε ρ backends elast hlast hall
    have hne : backends ≠ [] := by
      intro h
      rw [h] at hlast
      simp at hlast
    have hpos : 0 < backends.length := List.length_pos.mpr hne
    have := tryBackends_allfail backends elast hlast hall (backends.length - 1) 0 none 0 (by omega)
    rw [invokeWithFallback, this]
    congr 1
    omega
  refine ⟨h1, h2, ?_, ?_⟩
  · have := h1 Nat Nat [Except.error 1, Except.error 2, Except.ok 7] 2 (by decide) 7 rfl (by decide)
    simpa using this
  · have := h2 Nat Nat [Except.error 1, Except.error 2, Except.error 3] 3 rfl (by decide)
    simpa using this

theorem multi_backend_fallback_spec_witness :
    invokeWithFallback ([Except.error 10, Except.ok 5] : List (Except Nat Nat)) = (Except.ok 5, 2) := by
  have := multi_backend_fallback_spec.1 Nat Nat [Except.error 10, Except.ok 5] 1 (by decide) 5 rfl (by decide)
  simpa using this

theorem firstMatchIdx_none_of (p : KnowledgeNode → Bool) :
    ∀ l, (∀ x ∈ l, p x = false) → firstMatchIdx p l = none := by
  intro l h
  induction l with
  | nil => rfl
  | cons c rest ih =>
    have hc := h c (by simp)
    simp only [firstMatchIdx, hc, if_false, Bool.false_eq_true]
    rw [ih (fun x hx => h x (by simp [hx]))]
    rfl

theorem firstMatchIdx_append_cons (p : KnowledgeNode → Bool)
    (pre : List KnowledgeNode) (c : KnowledgeNode) (post : List KnowledgeNode)
    (hpre : ∀ x ∈ pre, p x = false) (hc : p c = true) :
    firstMatchIdx p (pre ++ c :: post) = some pre.length := by
  induction pre with
  | nil => simp [firstMatchIdx, hc]
  | cons a rest ih =>
    have ha := hpre a (by simp)
    have ih2 := ih (fun x hx => hpre x (by simp [hx]))
    simp [firstMatchIdx, ha, ih2]

theorem getD_append_cons (pre : List KnowledgeNode) (c : KnowledgeNode)
    (post : List KnowledgeNode) (d : KnowledgeNode) :
    (pre ++ c :: post).getD pre.length d = c := by
  induction pre with
  | nil => rfl
  | cons a rest ih => simpa using ih

theorem set_append_cons (pre : List KnowledgeNode) (c x : KnowledgeNode)
    (post : List KnowledgeNode) :
    (pre ++ c :: post).set pre.length x = pre ++ x :: post := by
  induction pre with
  | nil => rfl
  | cons a rest ih => simp [List.set, ih]

theorem title_mk (t c : Text) (ch : Option (List KnowledgeNode)) :
    (KnowledgeNode.mk t c ch).title = t := rfl

theorem childrenList_mk (t c : Text) (ch : Option (List KnowledgeNode)) :
    (KnowledgeNode.mk t c ch).childrenList = ch.getD [] := rfl

theorem withChildren_mk (t c : Text) (ch ch2 : Option (List KnowledgeNode)) :
    (KnowledgeNode.mk t c ch).withChildren ch2 = .mk t c ch2 := rfl

theorem children_mk (t c : Text) (ch : Option (List KnowledgeNode)) :
    (KnowledgeNode.mk t c ch).children = ch := rfl

/-- C9 (amended): `append_knowledge_node` is total and returns a tree built
from a deep copy (the copy is a full structural copy, and the input value
is untouched in this value-passing embedding); an empty path appends the
node at the root; a FINAL unmatched segment appends the new node directly
under the node reached so far — no intermediate node titled with that
segment is created; an unmatched NON-final segment auto-creates an
intermediate with placeholder content and the descent continues inside it;
a matched final segment appends the node under the first child carrying
that title. -/
theorem append_knowledge_node_spec :
    (∀ n, deepcopyNode n = n)
    ∧ (∀ t n, append_knowledge_node t [] n
        = t.withChildren (some (t.childrenList ++ [n])))
    ∧ (∀ t s2 n, (∀ c ∈ t.childrenList, c.title ≠ s2) →
        append_knowledge_node t [t.title, s2] n
          = t.withChildren (some (t.childrenList ++ [n])))
    ∧ (∀ t s1 s2 n, t.title ≠ s1 → (∀ c ∈ t.childrenList, c.title ≠ s1) →
        append_knowledge_node t [s1, s2] n
          = t.withChildren (some (t.childrenList
              ++ [KnowledgeNode.mk s1 ("自动创建的节点: ".toList ++ s1) (some [n])])))
    ∧ (∀ t s n pre c post, t.title ≠ s → t.children = some (pre ++ c :: post) →
        (∀ p ∈ pre, p.title ≠ s) → c.title = s →
        append_knowledge_node t [s] n
          = t.withChildren (some (pre ++ (c.withChildren (some (c.childrenList ++ [n]))) :: post))) := by
  refine ⟨deepcopyNode_eq, ?_, ?_, ?_, ?_⟩
  · intro t n
    simp [append_knowledge_node, deepcopyNode_eq, appendAux]
  · intro t s2 n h
    obtain ⟨tt, tc, tch⟩ := t
    simp only [childrenList_mk] at h
    have hnone : firstMatchIdx (fun c => c.title == s2) (tch.getD []) = none :=
      firstMatchIdx_none_of _ _ (fun x hx => by simpa using h x hx)
    simp only [append_knowledge_node, deepcopyNode_eq, title_mk, beq_self_eq_true, if_true,
      appendAux, childrenList_mk, hnone, List.isEmpty_nil, if_true, withChildren_mk]
  · intro t s1 s2 n ht h
    obtain ⟨tt, tc, tch⟩ := t
    simp only [childrenList_mk] at h
    simp only [title_mk] at ht
    have hnone : firstMatchIdx (fun c => c.title == s1) (tch.getD []) = none :=
      firstMatchIdx_none_of _ _ (fun x hx => by simpa using h x hx)
    have htb : (tt == s1) = false := by simpa using ht
    simp only [append_knowledge_node, deepcopyNode_eq, title_mk, htb, Bool.false_eq_true,
      if_false, appendAux, childrenList_mk, hnone, mkAutoNode, firstMatchIdx,
      withChildren_mk, List.isEmpty_cons, List.isEmpty_nil, Option.getD_some,
      List.nil_append]
    simp
  · intro t s n pre c post ht hch hpre hc
    obtain ⟨tt, tc, tch⟩ := t
    simp only [title_mk] at ht
    simp only [children_mk] at hch
    subst hch
    have htb : (tt == s) = false := by simpa using ht
    have hfind : firstMatchIdx (fun x => x.title == s) (pre ++ c :: post) = some pre.length :=
      firstMatchIdx_append_cons _ _ _ _
        (fun x hx => by simpa using hpre x hx) (by simpa using hc)
    simp only [append_knowledge_node, deepcopyNode_eq, title_mk, htb, Bool.false_eq_true,
      if_false, appendAux, childrenList_mk, Option.getD_some, hfind, getD_append_cons,
      set_append_cons, withChildren_mk]

/-- Witness for C9: instantiates the unmatched-final-segment clause at a
one-node tree, the path `["R", "X"]` and a concrete new node. -/
theorem append_knowledge_node_spec_witness :
    append_knowledge_node (.mk ("R".toList) ("rc".toList) none)
      [("R".toList), ("X".toList)] (.mk ("N".toList) ("nc".toList) none)
      = (KnowledgeNode.mk ("R".toList) ("rc".toList) none).withChildren
          (some ((KnowledgeNode.mk ("R".toList) ("rc".toList) none).childrenList
            ++ [.mk ("N".toList) ("nc".toList) none])) :=
  append_knowledge_node_spec.2.2.1 (.mk ("R".toList) ("rc".toList) none)
    ("X".toList) (.mk ("N".toList) ("nc".toList) none) (by decide)

/-- C9 counterexample: appending at path `["R", "X"]` into the childless
root `R` puts the new node directly under `R`: the result contains no
auto-created intermediate node titled `X`, although the final segment `X`
matched no existing child. -/
theorem append_knowledge_node_counterexample :
    append_knowledge_node (.mk ("R".toList) ("rc".toList) none)
      [("R".toList), ("X".toList)] (.mk ("N".toList) ("nc".toList) none)
      = KnowledgeNode.mk ("R".toList) ("rc".toList)
          (some [.mk ("N".toList) ("nc".toList) none])
    ∧ ¬ (("X".toList) ∈ nodeTitles
        (append_knowledge_node (.mk ("R".toList) ("rc".toList) none)
          [("R".toList), ("X".toList)] (.mk ("N".toList) ("nc".toList) none))) :=
  ⟨rfl, by decide⟩

/- C1 theorems -/

theorem runEval_eq_nil (times count : Nat) (t : KnowledgeNode) :
    runEval times [] count t = if times ≤ count then some (t, 0) else none := rfl

theorem runEval_eq_cons (times count : Nat) (t : KnowledgeNode) (r : EvalRes)
    (rest : List EvalRes) :
    runEval times (r :: rest) count t =
      if times ≤ count then some (t, 0)
      else
        match runEval times rest (evalStep count t r).1 (evalStep count t r).2 with
        | none => none
        | some (t2, n) => some (t2, n + 1) := rfl

theorem runEval_done (times : Nat) (rs : List EvalRes) (count : Nat)
    (t : KnowledgeNode) (h : times ≤ count) :
    runEval times rs count t = some (t, 0) := by
  cases rs with
  | nil => rw [runEval_eq_nil, if_pos h]
  | cons r rest => rw [runEval_eq_cons, if_pos h]

/-- Soundness of the convergence loop from an arbitrary counter value:
when the loop converges after consuming `n` results, at least
`times - count` were consumed, the last `min times n` consumed results are
all clean, and when more than `times` results were consumed the one
immediately before the final clean streak is dirty. -/
theorem runEval_sound (times : Nat) :
    ∀ rs count t tfin n, count < times →
      runEval times rs count t = some (tfin, n) →
      times - count ≤ n ∧ n ≤ rs.length
      ∧ (∀ j, j < n → n ≤ j + times → isDirty (rs.getD j default) = false)
      ∧ (times - count < n → times < n ∧ isDirty (rs.getD (n - times - 1) default) = true) := by
  intro rs
  induction rs with
  | nil =>
    intro count t tfin n hcount h
    rw [runEval_eq_nil, if_neg (by omega)] at h
    exact absurd h (by simp)
  | cons r rest ih =>
    intro count t tfin n hcount h
    rw [runEval_eq_cons, if_neg (by omega)] at h
    cases hrec : runEval times rest (evalStep count t r).1 (evalStep count t r).2 with
    | none => rw [hrec] at h; exact absurd h (by simp)
    | some p =>
      obtain ⟨t2, m⟩ := p
      rw [hrec] at h
      simp only [Option.some.injEq, Prod.mk.injEq] at h
      obtain ⟨ht2, hm⟩ := h
      subst ht2
      by_cases hd : isDirty r = true
      · -- dirty step: counter resets to 0, tree patched
        have hstep1 : (evalStep count t r).1 = 0 := by simp [evalStep, hd]
        rw [hstep1] at hrec
        obtain ⟨h1, h2, h3, h4⟩ := ih 0 _ t2 m (by omega) hrec
        have htm : times ≤ m := by omega
        subst hm
        refine ⟨by omega, by simpa using h2, ?_, ?_⟩
        · intro j hj hjt
          cases j with
          | zero => omega
          | succ j' =>
            have := h3 j' (by omega) (by omega)
            simpa using this
        · intro _
          refine ⟨by omega, ?_⟩
          by_cases hmt : m = times
          · have hz : m + 1 - times - 1 = 0 := by omega
            rw [hz]
            simpa using hd
          · have h4' := h4 (by omega)
            have hsh : m + 1 - times - 1 = (m - times - 1) + 1 := by omega
            rw [hsh]
            simpa using h4'.2
      · -- clean step: counter increments, tree unchanged
        have hdf : isDirty r = false := by simpa using hd
        have hstep1 : (evalStep count t r).1 = count + 1 := by simp [evalStep, hdf]
        have hstep2 : (evalStep count t r).2 = t := by simp [evalStep, hdf]
        rw [hstep1, hstep2] at hrec
        by_cases hconv : times ≤ count + 1
        · rw [runEval_done times rest (count + 1) t hconv] at hrec
          simp only [Option.some.injEq, Prod.mk.injEq] at hrec
          obtain ⟨hteq, hmeq⟩ := hrec
          subst hmeq
          subst hm
          refine ⟨by omega, by simp, ?_, by omega⟩
          intro j hj hjt
          have hj0 : j = 0 := by omega
          subst hj0
          simpa using hdf
        · obtain ⟨h1, h2, h3, h4⟩ := ih (count + 1) t t2 m (by omega) hrec
          subst hm
          refine ⟨by omega, by simpa using h2, ?_, ?_⟩
          · intro j hj hjt
            cases j with
            | zero => simpa using hdf
            | succ j' =>
              have := h3 j' (by omega) (by omega)
              simpa using this
          · intro hlt
            have h4' := h4 (by omega)
            refine ⟨by omega, ?_⟩
            have hsh : m + 1 - times - 1 = (m - times - 1) + 1 := by omega
            rw [hsh]
            simpa using h4'.2

/-- C1 (amended): an evaluation is CLEAN iff it is not an `incomplete`
status carrying a truthy (non-empty) point.  A dirty evaluation resets the
clean-pass counter to 0 regardless of its prior value and patches the tree;
every clean evaluation — which includes an `incomplete` status with a
missing or empty point — increments the counter by 1 and leaves the tree
unchanged; and the loop converges (returning the tree) only after exactly
`eva_k_times` consecutive clean evaluations: whenever
`runEval times rs 0 t` converges after consuming `n` results, `times ≤ n`,
the last `times` consumed results are all clean, and if `n > times` the
result consumed just before that streak was dirty. -/
theorem evaluation_loop_convergence_spec :
    (∀ k t r, isDirty r = true → evalStep k t r = (0, applyPoints t r))
    ∧ (∀ k t r, isDirty r = false → evalStep k t r = (k + 1, t))
    ∧ (∀ times rs t tfin n, 0 < times →
        runEval times rs 0 t = some (tfin, n) →
        times ≤ n ∧ n ≤ rs.length
        ∧ (∀ j, j < n → n ≤ j + times → isDirty (rs.getD j default) = false)
        ∧ (times < n → isDirty (rs.getD (n - times - 1) default) = true)) := by
  refine ⟨?_, ?_, ?_⟩
  · intro k t r h
    simp [evalStep, h]
  · intro k t r h
    simp [evalStep, h]
  · intro times rs t tfin n hpos h
    obtain ⟨h1, h2, h3, h4⟩ := runEval_sound times rs 0 t tfin n (by omega) h
    exact ⟨by simpa using h1, h2, h3, fun hlt => (h4 (by omega)).2⟩

/-- Witness for C1: one clean (`complete`) evaluation converges the loop at
threshold 1, and the consumed result is certified clean. -/
theorem evaluation_loop_convergence_spec_witness :
    1 ≤ 1 ∧ 1 ≤ ([(⟨"complete".toList, none⟩ : EvalRes)] : List EvalRes).length
    ∧ (∀ j, j < 1 → 1 ≤ j + 1 →
        isDirty (([(⟨"complete".toList, none⟩ : EvalRes)] : List EvalRes).getD j default) = false)
    ∧ (1 < 1 →
        isDirty (([(⟨"complete".toList, none⟩ : EvalRes)] : List EvalRes).getD (1 - 1 - 1) default) = true) :=
  evaluation_loop_convergence_spec.2.2 1 [⟨"complete".toList, none⟩]
    (KnowledgeNode.mk [] [] none) (KnowledgeNode.mk [] [] none) 1 (by decide) rfl

/-- C1 counterexample: a result with status `incomplete` but no point does
NOT reset the clean-pass counter — it increments it — and with
`requiredCleanPasses = 1` the loop converges immediately after this single
`incomplete` evaluation, with zero `complete` evaluations seen. -/
theorem evaluation_loop_counterexample :
    evalStep 0 (KnowledgeNode.mk [] [] none) ⟨"incomplete".toList, none⟩
      = (1, KnowledgeNode.mk [] [] none)
    ∧ runEval 1 [⟨"incomplete".toList, none⟩] 0 (KnowledgeNode.mk [] [] none)
      = some (KnowledgeNode.mk [] [] none, 1) :=
  ⟨rfl, rfl⟩

theorem runEval_all_dirty (times : Nat) :
    ∀ rs (count : Nat) (t : KnowledgeNode), count < times →
      (∀ r ∈ rs, isDirty r = true) → runEval times rs count t = none := by
  intro rs
  induction rs with
  | nil =>
    intro count t hc _
    rw [runEval_eq_nil, if_neg (by omega)]
  | cons r rest ih =>
    intro count t hc hall
    rw [runEval_eq_cons, if_neg (by omega)]
    have hd := hall r (by simp)
    have hstep1 : (evalStep count t r).1 = 0 := by simp [evalStep, hd]
    rw [hstep1, ih 0 _ (by omega) (fun x hx => hall x (by simp [hx]))]

theorem reconLoop_all_failing (doc : Text) :
    ∀ js c, contains_match c doc = false →
      (∀ j ∈ js, j.found = false ∧ contains_match j.corrected_content doc = false) →
      reconLoop doc js c = none := by
  intro js
  induction js with
  | nil =>
    intro c hc _
    rw [reconLoop]
    simp [hc]
  | cons j rest ih =>
    intro c hc hall
    rw [reconLoop]
    simp only [hc, Bool.false_eq_true, if_false]
    have hj := hall j (by simp)
    simp only [hj.1, Bool.false_eq_true, if_false]
    exact ih _ hj.2 (fun x hx => hall x (by simp [hx]))

/-- C2 (amended): neither loop is bounded in the code.  The completeness
evaluation loop (`init_evaluation_chain`) converges only through clean
passes: for every finite sequence of evaluator responses that are all
`incomplete` with a point, the loop consumes the whole sequence and is
still running — there is no iteration cap and no gave-up terminal state.
The per-chunk reconciliation loop (`gen_knowledge_chunk`) terminates only
when a candidate matches the source or a judge reports `found`: for every
finite sequence of judge responses that reject and produce non-matching
corrections (the candidate itself non-matching), the loop consumes the
whole sequence and is still running — there is no retry cap and no
low-confidence flag. -/
theorem loops_unbounded_spec :
    (∀ times rs t, 0 < times → (∀ r ∈ rs, isDirty r = true) →
      runEval times rs 0 t = none)
    ∧ (∀ doc c js, contains_match c doc = false →
        (∀ j ∈ js, j.found = false ∧ contains_match j.corrected_content doc = false) →
        reconLoop doc js c = none) :=
  ⟨fun times rs t hpos hall => runEval_all_dirty times rs 0 t (by omega) hall,
   fun doc c js hc hall => reconLoop_all_failing doc js c hc hall⟩

/-- Witness for C2: one always-incomplete response keeps the threshold-1
evaluation loop running, and one rejecting judgment with a non-matching
correction keeps the reconciliation loop running. -/
theorem loops_unbounded_spec_witness :
    runEval 1 [dirtyEx] 0 (KnowledgeNode.mk [] [] none) = none
    ∧ reconLoop ("abc".toList) [judgeEx] ("zzz".toList) = none :=
  ⟨loops_unbounded_spec.1 1 [dirtyEx] (KnowledgeNode.mk [] [] none) (by decide)
      (by intro r hr; simp only [List.mem_singleton] at hr; subst hr; decide),
   loops_unbounded_spec.2 ("abc".toList) ("zzz".toList) [judgeEx] (by decide)
      (by intro j hj; simp only [List.mem_singleton] at hj; subst hj
          exact ⟨rfl, by decide⟩)⟩

/-- C2 counterexample: after 20 evaluator responses that are all
`incomplete` (threshold 1) the evaluation loop is still running — it has
not converged and has entered no gave-up state — and after 20 rejecting
judge responses the reconciliation loop is still running, with no retry cap
and no low-confidence flag. -/
theorem loops_unbounded_counterexample :
    runEval 1 (List.replicate 20 dirtyEx) 0 (KnowledgeNode.mk [] [] none) = none
    ∧ reconLoop ("abc".toList) (List.replicate 20 judgeEx) ("zzz".toList) = none := by
  constructor
  · refine runEval_all_dirty 1 _ 0 _ (by omega) ?_
    intro r hr
    rw [List.eq_of_mem_replicate hr]
    decide
  · refine reconLoop_all_failing _ _ _ (by decide) ?_
    intro j hj
    rw [List.eq_of_mem_replicate hj]
    exact ⟨rfl, by decide⟩

/- C5 theorem -/

/-- C5: the patch engine never mutates its input tree.  In this
value-passing embedding the input object's value after the call is
returned explicitly by `modify_knowledge_tree_tracked` and equals the
input; the engine's only access to the input is `deepcopy`, which is the
full structural copy (proved the identity on values), and every patch is
applied to that copy, as the third conjunct states. -/
theorem modifier_never_mutates_input :
    (∀ ops tree, (modify_knowledge_tree_tracked ops tree).1 = tree)
    ∧ (∀ n, deepcopyNode n = n)
    ∧ (∀ ops tree, modify_knowledge_tree ops tree
        = match runOps ops 0 (deepcopyNode tree.root) 0 [] with
          | (r, mc, log) => (KnowledgeTree.mk r, mc, log)) :=
  ⟨fun _ _ => rfl, deepcopyNode_eq, fun _ _ => rfl⟩

/-- C6 counterexample: the path `root.children[0].children[1]` addresses
child 1 (`A1`) of node `A`, but `_get_parent_and_index` uses the FIRST
bracketed index of the path, so the engine deletes `root.children[0]` — the
whole subtree `A` — and the only surviving root child is `B`. -/
theorem delete_node_counterexample :
    deleteNode cexRoot ("root.children[0].children[1]".toList)
      = (KnowledgeNode.mk ("R".toList) ("r".toList) (some [cexChildB]), none)
    ∧ ((deleteNode cexRoot ("root.children[0].children[1]".toList)).1).childrenList.map
        KnowledgeNode.title = [("B".toList)] :=
  ⟨rfl, rfl⟩

theorem parseStep_ordinary_run :
    ∀ (s : Text) (parts : List Text) (cur : Text) (b : Bool),
      (∀ c ∈ s, c ≠ '[' ∧ c ≠ ']' ∧ c ≠ '.') →
      s.foldl parseStep (parts, cur, b) = (parts, cur ++ s, b) := by
  intro s
  induction s with
  | nil =>
    intro parts cur b _
    simp only [List.foldl_nil, List.append_nil]
  | cons c rest ih =>
    intro parts cur b h
    have hc := h c (by simp)
    have hstep : parseStep (parts, cur, b) c = (parts, cur ++ [c], b) := by
      simp [parseStep, hc.1, hc.2.1, hc.2.2]
    rw [List.foldl_cons, hstep, ih _ _ _ (fun x hx => h x (by simp [hx]))]
    simp only [List.append_assoc, List.singleton_append]

theorem digits_ordinary (s : Text) (h : ∀ c ∈ s, c.isDigit = true) :
    ∀ c ∈ s, c ≠ '[' ∧ c ≠ ']' ∧ c ≠ '.' := by
  intro c hc
  have hd := h c hc
  refine ⟨?_, ?_, ?_⟩ <;> (rintro rfl; exact absurd hd (by decide))

set_option maxRecDepth 8000 in
theorem parse_path_root_children_idx (s : Text) (hne : s ≠ [])
    (h : ∀ c ∈ s, c.isDigit = true) :
    parse_path ("root.children[".toList ++ s ++ "]".toList)
      = ["root".toList, "children".toList, '[' :: (s ++ [']'])] := by
  unfold parse_path
  rw [List.foldl_append, List.foldl_append]
  have h1 : ("root.children[".toList).foldl parseStep ([], [], false)
      = (["root".toList, "children".toList], [], true) := rfl
  rw [h1, parseStep_ordinary_run s _ _ _ (digits_ordinary s h)]
  have e1 : ("]".toList : Text) = [']'] := rfl
  have h2 : ([']'] : Text).foldl parseStep (["root".toList, "children".toList], [] ++ s, true)
      = (["root".toList, "children".toList] ++ ['[' :: (([] ++ s) ++ [']'])], [], false) := by
    rw [List.foldl_cons, List.foldl_nil]
    unfold parseStep
    simp only []
    rw [if_neg (by decide), if_pos trivial,
      if_pos ⟨trivial, by simpa [List.isEmpty_iff] using hne⟩]
  rw [e1, h2]
  exact rfl

theorem isIdxPart_bracketed (s : Text) :
    isIdxPart ('[' :: (s ++ [']'])) = true := by
  unfold isIdxPart
  have hh : ('[' :: (s ++ [']'])).head? = some '[' := rfl
  have hl : ('[' :: (s ++ [']'])).getLast? = some ']' := by
    rw [show ('[' :: (s ++ [']'])) = ('[' :: s) ++ [']'] from by simp,
      List.getLast?_concat]
  rw [hh, hl]
  rfl

theorem innerOf_bracketed (s : Text) : innerOf ('[' :: (s ++ [']'])) = s := by
  simp [innerOf, List.dropLast_concat]

/-- C6 (amended): for a delete whose path has the single-index form
`root.children[i]` — the index addressing a child of the root — the engine
removes exactly that child and re-indexes the remaining siblings
(`eraseIdx`); a children collection becoming empty is set to absent
(`None`), not `[]`; and an out-of-range index makes the operation fail,
leaving the tree unchanged.  A path with deeper index segments is instead
processed at its FIRST index segment (see the counterexample). -/
theorem delete_single_index_spec :
    ∀ (root : KnowledgeNode) (cs : List KnowledgeNode) (s : Text) (i : Nat),
      root.children = some cs → s ≠ [] → (∀ c ∈ s, c.isDigit = true) →
      pyInt s = some (Int.ofNat i) →
      ((i < cs.length →
          deleteNode root ("root.children[".toList ++ s ++ "]".toList)
            = (root.withChildren
                (if (cs.eraseIdx i).isEmpty then none else some (cs.eraseIdx i)), none))
        ∧ (cs.length ≤ i →
            (deleteNode root ("root.children[".toList ++ s ++ "]".toList)).1 = root
            ∧ ((deleteNode root ("root.children[".toList ++ s ++ "]".toList)).2).isSome
                = true)) := by
  intro root cs s i hch hne hdig hint
  have hparse := parse_path_root_children_idx s hne hdig
  have hroot : isIdxPart ("root".toList) = false := rfl
  have hchild : isIdxPart ("children".toList) = false := rfl
  have hnav : navUpdate (popChild (Int.ofNat i)) ["children".toList] root
      = .ok (popChild (Int.ofNat i) root) := rfl
  have hd0 : deleteNode root ("root.children[".toList ++ s ++ "]".toList)
      = match navUpdate (popChild (Int.ofNat i)) ["children".toList] root with
        | .error e => (root, some e)
        | .ok p => p := by
    unfold deleteNode
    simp only [hparse]
    rw [if_neg (by simp)]
    simp only [firstIdxPart, hroot, hchild, isIdxPart_bracketed s, Bool.false_eq_true,
      if_false, if_true]
    rw [innerOf_bracketed, hint]
    rfl
  rw [hd0, hnav]
  simp only []
  have hclist : root.childrenList = cs := by
    rw [KnowledgeNode.childrenList, hch]
    rfl
  constructor
  · intro hlt
    have hcs : cs ≠ [] := by
      intro hh
      rw [hh] at hlt
      simp at hlt
    unfold popChild
    simp only [hclist]
    have hc1 : (!cs.isEmpty) = true := by
      cases cs with
      | nil => exact absurd rfl hcs
      | cons a l => rfl
    have hc3 : (Int.ofNat i).toNat < cs.length := hlt
    rw [if_pos ⟨hc1, Int.natCast_nonneg i, hc3⟩]
    simp
  · intro hge
    unfold popChild
    simp only [hclist]
    rw [if_neg ?hcond]
    · exact ⟨rfl, rfl⟩
    case hcond =>
      intro hcon
      have h3 : i < cs.length := hcon.2.2
      omega

/-- Witness for C6: deleting index 1 of a root with three children
`[B, A, B]` yields the first and third child (the spec's `[A,B,C] → [A,C]`
shape), with all hypotheses discharged on concrete values. -/
theorem delete_single_index_spec_witness :
    deleteNode (KnowledgeNode.mk ("R".toList) ("r".toList)
        (some [cexChildB, cexChildA, cexChildB]))
        ("root.children[".toList ++ "1".toList ++ "]".toList)
      = ((KnowledgeNode.mk ("R".toList) ("r".toList)
          (some [cexChildB, cexChildA, cexChildB])).withChildren
          (if (([cexChildB, cexChildA, cexChildB] : List KnowledgeNode).eraseIdx 1).isEmpty
            then none
            else some (([cexChildB, cexChildA, cexChildB] : List KnowledgeNode).eraseIdx 1)),
         none) :=
  (delete_single_index_spec
    (KnowledgeNode.mk ("R".toList) ("r".toList) (some [cexChildB, cexChildA, cexChildB]))
    [cexChildB, cexChildA, cexChildB] ("1".toList) 1 rfl (by decide)
    (by decide) (by decide)).1 (by decide)

/- C7 lemmas -/

theorem set_getD_self :
    ∀ (cs : List KnowledgeNode) (i : Nat) (d : KnowledgeNode), i < cs.length →
      cs.set i (cs.getD i d) = cs := by
  intro cs
  induction cs with
  | nil => intro i d h; simp at h
  | cons a l ih =>
    intro i d h
    cases i with
    | zero => rfl
    | succ j =>
      simp only [List.getD_cons_succ, List.set_cons_succ, List.cons.injEq, true_and]
      exact ih j d (by simpa using h)

theorem withChildren_eta (n : KnowledgeNode) : n.withChildren n.children = n := by
  cases n
  rfl

theorem firstMatchIdx_lt_length (p : KnowledgeNode → Bool) :
    ∀ l j, firstMatchIdx p l = some j → j < l.length := by
  intro l
  induction l with
  | nil => intro j h; simp [firstMatchIdx] at h
  | cons a rest ih =>
    intro j h
    rw [firstMatchIdx] at h
    by_cases hp : p a = true
    · rw [if_pos hp] at h
      simp only [Option.some.injEq] at h
      simp only [List.length_cons]
      omega
    · rw [if_neg hp] at h
      rw [Option.map_eq_some'] at h
      obtain ⟨j0, hj0, hjeq⟩ := h
      have := ih j0 hj0
      simp only [List.length_cons]
      omega

theorem navUpdate_nil (f : KnowledgeNode → KnowledgeNode × Option Text)
    (node : KnowledgeNode) : navUpdate f [] node = .ok (f node) := rfl

/-- A located-node transformation that never changes the node when it
reports an error propagates that invariant through the navigation: an `ok`
result carrying an error leaves the whole tree unchanged. -/
theorem navUpdate_err_unchanged (f : KnowledgeNode → KnowledgeNode × Option Text)
    (hf : ∀ n, ((f n).2).isSome = true → (f n).1 = n) :
    ∀ parts node r2 e, navUpdate f parts node = .ok (r2, some e) → r2 = node := by
  intro parts
  induction parts with
  | nil =>
    intro node r2 e h
    rw [navUpdate_nil] at h
    simp only [Except.ok.injEq] at h
    have h2 : ((f node).2).isSome = true := by rw [h]; rfl
    have h1 := hf node h2
    rw [h] at h1
    exact h1
  | cons p rest ih =>
    intro node r2 e h
    rw [navUpdate] at h
    split at h
    · exact ih node r2 e h
    · split at h
      · -- index part
        split at h
        · exact absurd h (by simp)
        · rename_i idx hpy
          split at h
          · exact absurd h (by simp)
          · rename_i cs heq
            split at h
            · rename_i hrange
              split at h
              · exact absurd h (by simp)
              · rename_i c2 err hrec
                simp only [Except.ok.injEq, Prod.mk.injEq] at h
                obtain ⟨hr2, herr⟩ := h
                have hc2 := ih _ c2 e (by rw [hrec, herr])
                rw [← hr2, hc2, set_getD_self cs idx.toNat default hrange.2, ← heq,
                  withChildren_eta]
            · exact absurd h (by simp)
      · split at h
        · -- title/content break
          simp only [Except.ok.injEq] at h
          have h2 : ((f node).2).isSome = true := by rw [h]; rfl
          have h1 := hf node h2
          rw [h] at h1
          exact h1
        · -- keyword branch
          split at h
          · exact absurd h (by simp)
          · rename_i cs heq
            split at h
            · exact absurd h (by simp)
            · rename_i key hck
              split at h
              · exact absurd h (by simp)
              · rename_i j hfm
                split at h
                · exact absurd h (by simp)
                · rename_i c2 err hrec
                  simp only [Except.ok.injEq, Prod.mk.injEq] at h
                  obtain ⟨hr2, herr⟩ := h
                  have hc2 := ih _ c2 e (by rw [hrec, herr])
                  have hj := firstMatchIdx_lt_length _ cs j hfm
                  rw [← hr2, hc2, set_getD_self cs j default hj, ← heq, withChildren_eta]

/-- A located-node transformation that never reports an error yields an
`ok` navigation result whose error component is `none`. -/
theorem navUpdate_err_none (f : KnowledgeNode → KnowledgeNode × Option Text)
    (hf : ∀ n, (f n).2 = none) :
    ∀ parts node r2 err, navUpdate f parts node = .ok (r2, err) → err = none := by
  intro parts
  induction parts with
  | nil =>
    intro node r2 err h
    rw [navUpdate_nil] at h
    simp only [Except.ok.injEq] at h
    have := hf node
    rw [h] at this
    exact this
  | cons p rest ih =>
    intro node r2 err h
    rw [navUpdate] at h
    split at h
    · exact ih node r2 err h
    · split at h
      · split at h
        · exact absurd h (by simp)
        · rename_i idx hpy
          split at h
          · exact absurd h (by simp)
          · rename_i cs heq
            split at h
            · split at h
              · exact absurd h (by simp)
              · rename_i c2 err0 hrec
                simp only [Except.ok.injEq, Prod.mk.injEq] at h
                rw [← h.2]
                exact ih _ c2 err0 hrec
            · exact absurd h (by simp)
      · split at h
        · simp only [Except.ok.injEq] at h
          have := hf node
          rw [h] at this
          exact this
        · split at h
          · exact absurd h (by simp)
          · rename_i cs heq
            split at h
            · exact absurd h (by simp)
            · rename_i key hck
              split at h
              · exact absurd h (by simp)
              · rename_i j hfm
                split at h
                · exact absurd h (by simp)
                · rename_i c2 err0 hrec
                  simp only [Except.ok.injEq, Prod.mk.injEq] at h
                  rw [← h.2]
                  exact ih _ c2 err0 hrec

theorem addInto_ok (c : KNContent) (x : KnowledgeNode)
    (hc : isErr (createNodeFromContent c) = false) :
    (addInto c x).2 = none := by
  unfold addInto
  cases hcr : createNodeFromContent c with
  | error e => rw [hcr] at hc; simp [isErr] at hc
  | ok n => rfl

theorem popChild_err_unchanged (idx : Int) :
    ∀ n, ((popChild idx n).2).isSome = true → (popChild idx n).1 = n := by
  intro n h
  unfold popChild at *
  by_cases hcond : (!n.childrenList.isEmpty) = true ∧ 0 ≤ idx
      ∧ idx.toNat < n.childrenList.length
  · rw [if_pos hcond] at h
    simp at h
  · rw [if_neg hcond]

theorem setAttr_err_unchanged (attr : Text) (c : KNContent) :
    ∀ n, ((setAttr attr c n).2).isSome = true → (setAttr attr c n).1 = n := by
  intro n h
  unfold setAttr at *
  by_cases h1 : (attr == "title".toList) = true
  · rw [if_pos h1] at h
    cases n
    simp at h
  · rw [if_neg h1] at h ⊢
    by_cases h2 : (attr == "content".toList) = true
    · rw [if_pos h2] at h
      cases n
      simp at h
    · rw [if_neg h2]

/-- A failing operation of the kinds named by the claim — invalid path,
out-of-range index, missing content, and also a failing `add` whose payload
itself is creatable — leaves the tree unchanged.  (The single exception in
the code, excluded here by the payload hypothesis, is an `add` whose
payload creation fails after the parent's absent children were already
normalized to `[]`.) -/
theorem executeAction_err_unchanged :
    ∀ (root : KnowledgeNode) (op : ModOp),
      (op.action = "add".toList →
        ∀ c, op.content = some c → isErr (createNodeFromContent c) = false) →
      ∀ r2 e, executeAction root op = (r2, some e) → r2 = root := by
  intro root op hadd r2 e h
  unfold executeAction at h
  by_cases hp : op.path.isEmpty = true
  · rw [if_pos hp] at h
    simp only [Prod.mk.injEq] at h
    exact h.1.symm
  · rw [if_neg hp] at h
    by_cases ha : (op.action == "add".toList) = true
    · rw [if_pos ha] at h
      unfold addNode at h
      split at h
      · simp only [Prod.mk.injEq] at h
        exact h.1.symm
      · rename_i c heq
        have hok := hadd (by simpa using ha) c heq
        dsimp only [] at h
        split at h
        · have := addInto_ok c root hok
          rw [h] at this
          simp at this
        · split at h
          · simp only [Prod.mk.injEq] at h
            exact h.1.symm
          · rename_i r0 err0 hq
            have hnone := navUpdate_err_none (addInto c)
              (fun n => addInto_ok c n hok) _ root r0 err0 hq
            rw [hnone] at h
            simp only [Prod.mk.injEq] at h
            exact absurd h.2 (by simp)
    · rw [if_neg ha] at h
      by_cases hd : (op.action == "del".toList) = true
      · rw [if_pos hd] at h
        unfold deleteNode at h
        dsimp only [] at h
        split at h
        · simp only [Prod.mk.injEq] at h
          exact h.1.symm
        · split at h
          · simp only [Prod.mk.injEq] at h
            exact h.1.symm
          · rename_i i0 part0 hpr
            split at h
            · simp only [Prod.mk.injEq] at h
              exact h.1.symm
            · rename_i idx hidx
              split at h
              · simp only [Prod.mk.injEq] at h
                exact h.1.symm
              · rename_i r0 err0 hq
                simp only [Prod.mk.injEq] at h
                rw [← h.1]
                exact navUpdate_err_unchanged (popChild idx)
                  (popChild_err_unchanged idx) _ root r0 e (by rw [hq, h.2])
      · rw [if_neg hd] at h
        by_cases hm : (op.action == "modify".toList) = true
        · rw [if_pos hm] at h
          unfold modifyNode at h
          split at h
          · simp only [Prod.mk.injEq] at h
            exact h.1.symm
          · rename_i c heq
            dsimp only [] at h
            split at h
            · simp only [Prod.mk.injEq] at h
              exact h.1.symm
            · rename_i r0 err0 hq
              simp only [Prod.mk.injEq] at h
              rw [← h.1]
              exact navUpdate_err_unchanged _
                (setAttr_err_unchanged _ c) _ root r0 e (by rw [hq, h.2])
        · rw [if_neg hm] at h
          simp only [Prod.mk.injEq] at h
          exact h.1.symm

theorem runOps_count :
    ∀ (ops : List ModOp) (i : Nat) (root : KnowledgeNode) (mc : Nat) (log : List Text),
      (runOps ops i root mc log).2.1 + (runOps ops i root mc log).2.2.length
        = mc + log.length
          + (ops.filter (fun op => !(op.action == "none".toList))).length := by
  intro ops
  induction ops with
  | nil => intro i root mc log; simp [runOps]
  | cons op rest ih =>
    intro i root mc log
    rw [runOps]
    by_cases hn : (op.action == "none".toList) = true
    · rw [if_pos hn]
      rw [List.filter_cons]
      simp only [hn, Bool.not_true, Bool.false_eq_true, if_false]
      exact ih (i + 1) root mc log
    · rw [if_neg hn]
      rw [List.filter_cons]
      have hnn : (!(op.action == "none".toList)) = true := by
        simp only [Bool.not_eq_true'] at *
        simpa using hn
      simp only [hnn, if_true]
      cases hex : executeAction root op with
      | mk r2 err =>
        cases err with
        | none =>
          have := ih (i + 1) r2 (mc + 1) log
          simp only [List.length_cons]
          omega
        | some e =>
          have := ih (i + 1) r2 mc (log ++ [opErrMsg i e])
          simp only [List.length_append, List.length_cons, List.length_nil] at *
          omega

theorem runOps_tree_indep :
    ∀ (ops : List ModOp) (i : Nat) (root : KnowledgeNode) (mc : Nat) (log : List Text)
      (i2 mc2 : Nat) (log2 : List Text),
      (runOps ops i root mc log).1 = (runOps ops i2 root mc2 log2).1 := by
  intro ops
  induction ops with
  | nil => intro i root mc log i2 mc2 log2; rfl
  | cons op rest ih =>
    intro i root mc log i2 mc2 log2
    rw [runOps, runOps]
    by_cases hn : (op.action == "none".toList) = true
    · rw [if_pos hn, if_pos hn]
      exact ih _ root _ _ _ _ _
    · rw [if_neg hn, if_neg hn]
      cases hex : executeAction root op with
      | mk r2 err =>
        cases err with
        | none => exact ih _ r2 _ _ _ _ _
        | some e => exact ih _ r2 _ _ _ _ _

theorem runOps_log_len :
    ∀ (ops : List ModOp) (i : Nat) (root : KnowledgeNode) (mc : Nat) (log : List Text)
      (i2 mc2 : Nat) (log2 : List Text),
      (runOps ops i root mc log).2.2.length + log2.length
        = (runOps ops i2 root mc2 log2).2.2.length + log.length := by
  intro ops
  induction ops with
  | nil => intro i root mc log i2 mc2 log2; simp [runOps]; omega
  | cons op rest ih =>
    intro i root mc log i2 mc2 log2
    rw [runOps, runOps]
    by_cases hn : (op.action == "none".toList) = true
    · rw [if_pos hn, if_pos hn]
      exact ih _ root _ _ _ _ _
    · rw [if_neg hn, if_neg hn]
      cases hex : executeAction root op with
      | mk r2 err =>
        cases err with
        | none => exact ih _ r2 _ _ _ _ _
        | some e =>
          have := ih (i + 1) r2 mc (log ++ [opErrMsg i e]) (i2 + 1) mc2
            (log2 ++ [opErrMsg i2 e])
          simp only [List.length_append, List.length_cons, List.length_nil] at *
          omega

theorem runOps_append :
    ∀ (ops1 ops2 : List ModOp) (i : Nat) (root : KnowledgeNode) (mc : Nat) (log : List Text),
      runOps (ops1 ++ ops2) i root mc log
        = runOps ops2 (i + ops1.length) (runOps ops1 i root mc log).1
            (runOps ops1 i root mc log).2.1 (runOps ops1 i root mc log).2.2 := by
  intro ops1
  induction ops1 with
  | nil => intro ops2 i root mc log; simp [runOps]
  | cons op rest ih =>
    intro ops2 i root mc log
    rw [List.cons_append, runOps, runOps]
    by_cases hn : (op.action == "none".toList) = true
    · rw [if_pos hn, if_pos hn]
      rw [ih ops2 (i + 1) root mc log]
      simp only [List.length_cons]
      congr 1
      omega
    · rw [if_neg hn, if_neg hn]
      cases hex : executeAction root op with
      | mk r2 err =>
        cases err with
        | none =>
          show runOps (rest ++ ops2) (i + 1) r2 (mc + 1) log
            = runOps ops2 (i + (op :: rest).length)
                (runOps rest (i + 1) r2 (mc + 1) log).1
                (runOps rest (i + 1) r2 (mc + 1) log).2.1
                (runOps rest (i + 1) r2 (mc + 1) log).2.2
          have hidx : i + (op :: rest).length = (i + 1) + rest.length := by
            simp only [List.length_cons]
            omega
          rw [hidx]
          exact ih ops2 (i + 1) r2 (mc + 1) log
        | some e =>
          show runOps (rest ++ ops2) (i + 1) r2 mc (log ++ [opErrMsg i e])
            = runOps ops2 (i + (op :: rest).length)
                (runOps rest (i + 1) r2 mc (log ++ [opErrMsg i e])).1
                (runOps rest (i + 1) r2 mc (log ++ [opErrMsg i e])).2.1
                (runOps rest (i + 1) r2 mc (log ++ [opErrMsg i e])).2.2
          have hidx : i + (op :: rest).length = (i + 1) + rest.length := by
            simp only [List.length_cons]
            omega
          rw [hidx]
          exact ih ops2 (i + 1) r2 mc (log ++ [opErrMsg i e])

theorem modify_eq (ops : List ModOp) (tree : KnowledgeTree) :
    modify_knowledge_tree ops tree
      = (KnowledgeTree.mk (runOps ops 0 tree.root 0 []).1,
         (runOps ops 0 tree.root 0 []).2.1, (runOps ops 0 tree.root 0 []).2.2) := by
  unfold modify_knowledge_tree
  rw [deepcopyNode_eq]

/-- C7 (amended): operations in one batch are applied independently — a
failing operation of the kinds the claim names (invalid path, out-of-range
index, missing content) is skipped without changing the tree, is logged,
and the batch continues: tree and error count compose over batch
concatenation.  The post-batch stats report the count of SUCCEEDED
modifications (`total_modifications`), the error list, and
`success = (errors is empty)`; no separate total-attempted count is part
of the stats (for a batch without `none` actions it is
`total_modifications + errors.length`). -/
theorem modifier_batch_spec :
    (∀ mc log, (get_modification_stats mc log).total_modifications = mc
        ∧ (get_modification_stats mc log).errors = log
        ∧ (get_modification_stats mc log).success = log.isEmpty)
    ∧ (∀ ops tree,
        (modify_knowledge_tree ops tree).2.1 + (modify_knowledge_tree ops tree).2.2.length
          = (ops.filter (fun op => !(op.action == "none".toList))).length)
    ∧ (∀ (root : KnowledgeNode) (op : ModOp),
        (op.action = "add".toList →
          ∀ c, op.content = some c → isErr (createNodeFromContent c) = false) →
        ∀ r2 e, executeAction root op = (r2, some e) → r2 = root)
    ∧ (∀ ops1 ops2 tree,
        (modify_knowledge_tree (ops1 ++ ops2) tree).1
          = (modify_knowledge_tree ops2 (modify_knowledge_tree ops1 tree).1).1
        ∧ (modify_knowledge_tree (ops1 ++ ops2) tree).2.2.length
          = (modify_knowledge_tree ops1 tree).2.2.length
            + (modify_knowledge_tree ops2 (modify_knowledge_tree ops1 tree).1).2.2.length) := by
  refine ⟨fun mc log => ⟨rfl, rfl, rfl⟩, ?_, executeAction_err_unchanged, ?_⟩
  · intro ops tree
    rw [modify_eq]
    simpa using runOps_count ops 0 tree.root 0 []
  · intro ops1 ops2 tree
    rw [modify_eq, modify_eq, modify_eq, runOps_append]
    constructor
    · simp only [KnowledgeTree.mk.injEq]
      exact runOps_tree_indep ops2 (0 + ops1.length) _ _ _ 0 0 []
    · have := runOps_log_len ops2 (0 + ops1.length)
        (runOps ops1 0 tree.root 0 []).1
        (runOps ops1 0 tree.root 0 []).2.1
        (runOps ops1 0 tree.root 0 []).2.2 0 0 []
      simp only [List.length_nil] at this
      dsimp only
      omega

/-- Witness for C7: the failing-operation clause applied to a concrete
out-of-range delete on a concrete tree — the tree is unchanged. -/
theorem modifier_batch_spec_witness :
    (executeAction cexRoot
        ⟨"del".toList, "root.children[9]".toList, none, "w".toList⟩).1 = cexRoot :=
  modifier_batch_spec.2.2.1 cexRoot
    ⟨"del".toList, "root.children[9]".toList, none, "w".toList⟩
    (fun habs => absurd habs (by decide)) cexRoot
    ("Invalid index for deletion".toList) rfl

/-- C7 counterexample: a batch of one failing delete yields stats
`{total_modifications := 0, errors := [one message], success := false}` —
the only count reported is the SUCCEEDED count 0; the claimed
`totalAttempted` (which would be 1) is not part of the stats dict. -/
theorem modifier_stats_counterexample :
    (get_modification_stats
        (modify_knowledge_tree
          [⟨"del".toList, "root.children[9]".toList, none, "r".toList⟩]
          (KnowledgeTree.mk cexRoot)).2.1
        (modify_knowledge_tree
          [⟨"del".toList, "root.children[9]".toList, none, "r".toList⟩]
          (KnowledgeTree.mk cexRoot)).2.2)
      = ⟨0, [opErrMsg 0 ("Invalid index for deletion".toList)], false⟩ := rfl

theorem buildDocs_length_tagged (f : Text) :
    ∀ (chunks : List MChunk) (i : Nat),
      (∀ ch ∈ chunks, ch.chunk_content ≠ [] ∧ ch.metadata.source_file = f) →
      (buildDocs chunks i).length = chunks.length
      ∧ ∀ d ∈ buildDocs chunks i, d.source_file = f := by
  intro chunks
  induction chunks with
  | nil => intro i _; exact ⟨rfl, by simp [buildDocs]⟩
  | cons ch rest ih =>
    intro i hall
    have hch := hall ch (by simp)
    have hne : ch.chunk_content.isEmpty = false := by
      simp [List.isEmpty_iff, hch.1]
    obtain ⟨ihlen, ihtag⟩ := ih (i + 1) (fun x hx => hall x (by simp [hx]))
    rw [buildDocs]
    simp only [hne, Bool.false_eq_true, if_false]
    refine ⟨by simp [ihlen], ?_⟩
    intro d hd
    simp only [List.mem_cons] at hd
    cases hd with
    | inl h => rw [h]; exact hch.2
    | inr h => exact ihtag d h

/-- C8 (amended): for a non-empty chunk list all tagged with the same
non-sentinel `source_file` and with non-empty contents, one ingestion run
first deletes every stored document carrying that `source_file` and then
appends exactly one document per chunk, so after ingesting — once or twice
— the store holds exactly `len(chunks)` documents tagged with that file. -/
theorem vector_ingestion_replace_spec :
    ∀ (f : Text) (chunks : List MChunk) (store : List VDoc),
      chunks ≠ [] → f ≠ "未知".toList →
      (∀ ch ∈ chunks, ch.chunk_content ≠ [] ∧ ch.metadata.source_file = f) →
      process_state_to_vectordb store chunks
          = store.filter (fun d => d.source_file ≠ f) ++ buildDocs chunks 0
      ∧ countTagged (process_state_to_vectordb store chunks) f = chunks.length
      ∧ countTagged
          (process_state_to_vectordb (process_state_to_vectordb store chunks) chunks) f
          = chunks.length := by
  intro f chunks store hne hf hall
  obtain ⟨hlen, htag⟩ := buildDocs_length_tagged f chunks 0 hall
  have hmain : ∀ st : List VDoc, process_state_to_vectordb st chunks
      = st.filter (fun d => d.source_file ≠ f) ++ buildDocs chunks 0 := by
    intro st
    cases chunks with
    | nil => exact absurd rfl hne
    | cons c0 rest =>
      rw [process_state_to_vectordb]
      have hc0 := hall c0 (by simp)
      rw [hc0.2]
      rw [if_pos hf]
      rw [if_neg ?hne2]
      case hne2 =>
        have : (buildDocs (c0 :: rest) 0).length = (c0 :: rest).length := hlen
        intro hemp
        rw [List.isEmpty_iff] at hemp
        rw [hemp] at this
        simp at this
  have hcount : ∀ st : List VDoc,
      countTagged (process_state_to_vectordb st chunks) f = chunks.length := by
    intro st
    rw [hmain st]
    unfold countTagged
    rw [List.filter_append]
    have h1 : (st.filter (fun d => d.source_file ≠ f)).filter
        (fun d => d.source_file == f) = [] := by
      rw [List.filter_filter]
      apply List.filter_eq_nil_iff.mpr
      intro d _
      by_cases hd : d.source_file = f
      · simp [hd]
      · simp [hd]
    have h2 : (buildDocs chunks 0).filter (fun d => d.source_file == f)
        = buildDocs chunks 0 := by
      apply List.filter_eq_self.mpr
      intro d hd
      simp [htag d hd]
    rw [h1, h2]
    simpa using hlen
  exact ⟨hmain store, hcount store, hcount _⟩

/-- Witness for C8: one chunk with non-empty content (`hello`) tagged
`doc.txt`, ingested twice into an empty store, leaves exactly one tagged
document. -/
theorem vector_ingestion_replace_spec_witness :
    countTagged
        (process_state_to_vectordb
          (process_state_to_vectordb []
            [⟨⟨⟨"t".toList, [], [], [], "b".toList⟩, "doc.txt".toList⟩, "hello".toList⟩])
          [⟨⟨⟨"t".toList, [], [], [], "b".toList⟩, "doc.txt".toList⟩, "hello".toList⟩])
        ("doc.txt".toList)
      = ([⟨⟨⟨"t".toList, [], [], [], "b".toList⟩, "doc.txt".toList⟩, "hello".toList⟩]
          : List MChunk).length :=
  (vector_ingestion_replace_spec ("doc.txt".toList)
    [⟨⟨⟨"t".toList, [], [], [], "b".toList⟩, "doc.txt".toList⟩, "hello".toList⟩]
    [] (by simp) (by decide)
    (by intro ch hch; simp only [List.mem_singleton] at hch; subst hch
        exact ⟨by decide, rfl⟩)).2.2

/-- C8 counterexample: a single chunk whose `chunk_content` is empty is
skipped by the document builder, so ingesting it twice leaves 0 documents
tagged with its `source_file`, not `len(chunks) = 1`. -/
theorem vector_ingestion_counterexample :
    countTagged
        (process_state_to_vectordb
          (process_state_to_vectordb []
            [⟨⟨⟨"t".toList, [], [], [], "b".toList⟩, "doc.txt".toList⟩, []⟩])
          [⟨⟨⟨"t".toList, [], [], [], "b".toList⟩, "doc.txt".toList⟩, []⟩])
        ("doc.txt".toList) = 0
    ∧ ([⟨⟨⟨"t".toList, [], [], [], "b".toList⟩, "doc.txt".toList⟩, []⟩]
        : List MChunk).length = 1 :=
  ⟨rfl, rfl⟩

/- C10 theorems -/

theorem buildODocs_eq_filterMap (st : OState) :
    ∀ (chunks : List OKChunk) (i : Nat),
      buildODocs st chunks i
        = ((List.enumFrom i chunks).filter
            (fun p => !(p.2.title.isEmpty || p.2.content.isEmpty))).map
            (fun p => mkODoc st p.2 p.1) := by
  intro chunks
  induction chunks with
  | nil => intro i; rfl
  | cons ch rest ih =>
    intro i
    rw [buildODocs, List.enumFrom, List.filter_cons]
    by_cases hskip : (ch.title.isEmpty || ch.content.isEmpty) = true
    · rw [if_pos hskip]
      simp only [hskip, Bool.not_true, Bool.false_eq_true, if_false]
      exact ih (i + 1)
    · have hkeep : ch.title.isEmpty = false ∧ ch.content.isEmpty = false := by
        constructor <;> (revert hskip; cases ch.title.isEmpty <;> cases ch.content.isEmpty <;> simp)
      rw [if_neg (by simp [hkeep.1, hkeep.2])]
      have hb : (!(ch.title.isEmpty || ch.content.isEmpty)) = true := by
        simp [hkeep.1, hkeep.2]
      simp only [hb, if_true, List.map_cons]
      rw [ih (i + 1)]

theorem buildODocs_len_le (st : OState) :
    ∀ (chunks : List OKChunk) (i : Nat), (buildODocs st chunks i).length ≤ chunks.length := by
  intro chunks
  induction chunks with
  | nil => intro i; simp [buildODocs]
  | cons ch rest ih =>
    intro i
    rw [buildODocs]
    by_cases hskip : (ch.title.isEmpty || ch.content.isEmpty) = true
    · rw [if_pos hskip]
      calc (buildODocs st rest (i + 1)).length ≤ rest.length := ih (i + 1)
        _ ≤ (ch :: rest).length := by simp
    · rw [if_neg hskip]
      simpa using ih (i + 1)

/-- C10: the old-version document builder silently skips every chunk whose
title or content is empty — the kept documents are exactly the non-empty
chunks of the (possibly `max_records`-truncated) list, in order, as the
filter-map characterization states — so the number of documents can be
strictly smaller than the number of chunks supplied (the concrete
two-chunk conjunct), and a chunk list yielding no documents makes the
ingestion call return with the store unchanged (no write, no error). -/
theorem chunk_document_skip_spec :
    (∀ st chunks i, buildODocs st chunks i
        = ((List.enumFrom i chunks).filter
            (fun p => !(p.2.title.isEmpty || p.2.content.isEmpty))).map
            (fun p => mkODoc st p.2 p.1))
    ∧ (∀ max_records st,
        (create_documents_from_chunks max_records st).length ≤ st.chunks.length)
    ∧ (create_documents_from_chunks 0
        ⟨"d".toList, "f".toList, "k".toList,
          [⟨"t1".toList, "c1".toList, none⟩, ⟨[], "c2".toList, none⟩]⟩).length = 1
    ∧ (∀ max_records store st,
        create_documents_from_chunks max_records st = [] →
        process_state_to_vectordb_old max_records store st = store) := by
  refine ⟨buildODocs_eq_filterMap, ?_, rfl, ?_⟩
  · intro max_records st
    unfold create_documents_from_chunks
    by_cases htr : 0 < max_records ∧ max_records < st.chunks.length
    · rw [if_pos htr]
      calc (buildODocs st (st.chunks.take max_records) 0).length
          ≤ (st.chunks.take max_records).length := buildODocs_len_le st _ 0
        _ ≤ st.chunks.length := by simp
    · rw [if_neg htr]
      exact buildODocs_len_le st _ 0
  · intro max_records store st hdocs
    unfold process_state_to_vectordb_old
    by_cases hempty : st.chunks.isEmpty = true
    · rw [if_pos hempty]
    · rw [if_neg hempty]
      rw [hdocs]
      rfl

/-- Witness for C10: a single empty-titled chunk yields no documents and
the ingestion call leaves a concrete store unchanged. -/
theorem chunk_document_skip_spec_witness :
    process_state_to_vectordb_old 0 [⟨"p".toList, [("k".toList, "v".toList)]⟩]
        ⟨"d".toList, "f".toList, "k".toList, [⟨[], "c".toList, none⟩]⟩
      = [⟨"p".toList, [("k".toList, "v".toList)]⟩] :=
  chunk_document_skip_spec.2.2.2 0 [⟨"p".toList, [("k".toList, "v".toList)]⟩]
    ⟨"d".toList, "f".toList, "k".toList, [⟨[], "c".toList, none⟩]⟩ rfl
